import Mathlib

/-!
Verification development for the `tree_permission` module
(`plugins/modules/tree_permission.py`): a tree walker that reconciles
POSIX modes and owners against an ordered list of regex rules.

The Python source is shallowly embedded below:
* the fragment of Python `re` that the module's rule patterns use
  (literals, `.`, `*`, `^`, `$`, `|`) is modelled by a string-level
  backtracking matcher, including `re.match` anchoring-at-start and the
  CPython semantics of `$` (end of string, or just before one trailing
  newline) and `.` (any character except newline);
* the filesystem is a finite association list from absolute path strings
  to entries (mode, uid, gid, and a file/dir/symlink type); `os.lstat`,
  `os.path.isdir`, `os.path.abspath` (via `posixpath.normpath`) are
  modelled on it, including symlink following for `isdir` and the POSIX
  trailing-slash resolution rule for `lstat`;
* fallible module code (`fail_json` + `sys.exit`) is modelled with
  `Except String`; the tree walk of one reconciliation run is
  represented by the list of path records it yields.
-/

namespace TreePermission

/-! ## The Python `re` fragment used by the module

`PermissionRegex.__init__` compiles `'^{root_path}{path}$'` with
`re.compile` and tests paths with `regex.match` (anchored at the start,
not required to reach the end).  The matcher below interprets that
pattern string directly, for the fragment consisting of plain
characters, `.`, `*`, `^`, `$` and top-level `|`. -/

/-- One non-star pattern atom (`.` or a plain character) tested against
text position `i`.  Python's `.` matches any character except `'\n'`. -/
def atomM (a : Char) (s : List Char) (i : Nat) : Bool :=
  if h : i < s.length then
    let c := s[i]
    if a = '.' then c ≠ '\n' else a = c
  else false

/-- `$` in CPython (no MULTILINE): succeeds at the end of the text or
just before a single trailing newline. -/
def atEndOrNl (s : List Char) (i : Nat) : Bool :=
  i = s.length ∨ (i + 1 = s.length ∧ s[i]? = some '\n')

/-- Number of consecutive text positions from `i` at which atom `a`
matches (the run a greedy `*` can consume). -/
def starCount (a : Char) (s : List Char) (i : Nat) : Nat :=
  ((s.drop i).takeWhile (fun c => if a = '.' then c ≠ '\n' else a = c)).length

/-- All text positions reachable from `i` by iterating atom `a` under
`*` (zero up to `starCount` repetitions; the set of end positions is
what matters for match existence). -/
def starP (a : Char) (s : List Char) (i : Nat) : List Nat :=
  (List.range (starCount a s i + 1)).map (fun k => i + k)

/-- End positions in the text `s` reachable by matching one `|`-free
pattern-string `pat` starting at text position `i`. -/
def seqEnds : List Char → List Char → Nat → List Nat
  | [], _, i => [i]
  | c :: rest, s, i =>
    if c = '^' then (if i = 0 then seqEnds rest s i else [])
    else if c = '$' then (if atEndOrNl s i then seqEnds rest s i else [])
    else
      match rest with
      | '*' :: rest2 => (starP c s i).flatMap (fun j => seqEnds rest2 s j)
      | [] => if atomM c s i then [i + 1] else []
      | c2 :: rest2 => if atomM c s i then seqEnds (c2 :: rest2) s (i + 1) else []

/-- Split a pattern string at each top-level `|` (the fragment has no
groups, so every `|` is top-level). -/
def splitAlts : List Char → List (List Char)
  | [] => [[]]
  | c :: rest =>
    if c = '|' then [] :: splitAlts rest
    else
      match splitAlts rest with
      | [] => [[c]]
      | alt :: alts => (c :: alt) :: alts

/-- Model of `compiled.match(s) is not None` for a compiled pattern
string `pat`: some alternative matches a prefix of `s` starting at
position 0. -/
def reMatch (pat s : String) : Bool :=
  (splitAlts pat.toList).any (fun alt => !(seqEnds alt s.toList 0).isEmpty)

/-- Does the pattern match the *entire* candidate string (the property
the spec ascribes to the compiled anchored pattern)? -/
def fullMatchStr (pat s : String) : Bool :=
  (splitAlts pat.toList).any (fun alt => (seqEnds alt s.toList 0).contains s.toList.length)

/-- Characters the fragment refuses to compile (`re.compile` would give
them meaning the model does not implement). -/
def hardMeta (c : Char) : Bool :=
  c = '+' ∨ c = '?' ∨ c = '(' ∨ c = ')' ∨ c = '[' ∨ c = ']' ∨
  c = '\\' ∨ c = '{' ∨ c = '}'

/-- Validity scan for a pattern string: rejects unsupported
metacharacters and a `*` with nothing (repeatable) before it.  The flag
says whether a `*` may occur at the current position. -/
def validScan : List Char → Bool → Bool
  | [], _ => true
  | c :: rest, canStar =>
    if hardMeta c then false
    else if c = '*' then canStar && validScan rest false
    else if c = '|' ∨ c = '^' ∨ c = '$' then validScan rest false
    else validScan rest true

/-- A pattern string lies in the compiled fragment. -/
def validPat (cs : List Char) : Bool := validScan cs false

/-- A character with no meaning to `re` in the modelled fragment: it
matches only itself. -/
def plainChar (c : Char) : Bool :=
  ¬ (c = '^' ∨ c = '$' ∨ c = '*' ∨ c = '.' ∨ c = '|' ∨ hardMeta c = true)

/-- Literal (all-plain) pattern matching at a position: character by
character equality. -/
def litMatchAt : List Char → List Char → Nat → Bool
  | [], _, _ => true
  | c :: rest, s, i => s[i]? = some c && litMatchAt rest s (i + 1)

/-! ## Filesystem model

The tree is a finite association list from absolute path strings
(stored without trailing slashes) to entries.  `os.lstat` does not
follow a symlink in the final component — unless the caller's path
carries a trailing slash, in which case POSIX path resolution follows
it (this matters because the module's `normpath` appends a slash to
anything `os.path.isdir` says is a directory).  `os.path.isdir` follows
symlinks (it is `stat` + `S_ISDIR`). -/

/-- File type of an entry; a symlink stores its target path. -/
inductive FType where
  | file : FType
  | dir : FType
  | symlink : String → FType
deriving DecidableEq, Repr

/-- One filesystem entry: full `st_mode` (type and permission bits),
owner uid, group gid, and the entry's type. -/
structure FSEntry where
  mode : Nat
  uid : Nat
  gid : Nat
  ftype : FType
deriving DecidableEq, Repr

/-- A filesystem (or any name table): finite association list. -/
def lookupTab {α : Type} : List (String × α) → String → Option α
  | [], _ => none
  | (q, v) :: rest, p => if q = p then some v else lookupTab rest p

/-- A modelled filesystem. -/
abbrev FS := List (String × FSEntry)

/-- `stat`-style resolution: follow symlinks in the final component,
with fuel modelling the kernel's symlink-loop limit. -/
def statFollow (fs : FS) : Nat → String → Option FSEntry
  | 0, _ => none
  | fuel + 1, p =>
    match lookupTab fs p with
    | none => none
    | some e =>
      match e.ftype with
      | FType.symlink t => statFollow fs fuel t
      | _ => some e

/-- The characters of a path with its trailing slashes removed. -/
def stripCore (s : String) : List Char :=
  (s.toList.reverse.dropWhile (fun c => c = '/')).reverse

/-- Remove trailing slashes from a path, keeping `"/"` when the path
consisted only of slashes (how the OS treats `"/x/"` as `"/x"`). -/
def stripSlashes (s : String) : String :=
  if (stripCore s).isEmpty && !s.toList.isEmpty then "/" else String.mk (stripCore s)

/-- Model of `os.path.isdir`: dereferencing stat, then `S_ISDIR`. -/
def isdirF (fs : FS) (p : String) : Bool :=
  match statFollow fs 40 (stripSlashes p) with
  | some e => match e.ftype with | FType.dir => true | _ => false
  | none => false

/-- Model of `os.lstat`: no dereference of a final symlink, except that
a trailing slash forces full resolution (POSIX). -/
def lstatF (fs : FS) (p : String) : Option FSEntry :=
  if p.toList.getLast? = some '/' && p ≠ "/" then
    statFollow fs 40 (stripSlashes p)
  else lookupTab fs p

/-! ### `posixpath` model (for `os.path.abspath`) -/

/-- Split a character list at every occurrence of `sep`
(like Python `str.split(sep)`). -/
def splitOnChar (sep : Char) : List Char → List (List Char)
  | [] => [[]]
  | c :: rest =>
    if c = sep then [] :: splitOnChar sep rest
    else
      match splitOnChar sep rest with
      | [] => [[c]]
      | part :: parts => (c :: part) :: parts

/-- Join strings with a separator (like `sep.join(parts)`). -/
def joinSep (sep : String) : List String → String
  | [] => ""
  | [a] => a
  | a :: rest => a ++ sep ++ joinSep sep rest

/-- Model of `posixpath.normpath`: collapse `//` and `.`, resolve `..`
lexically, preserve the POSIX double-slash root. -/
def posixNormpath (p : String) : String :=
  if p = "" then "." else
  let cs := p.toList
  let slashes : Nat :=
    if cs.take 2 = ['/', '/'] && !(cs.take 3 = ['/', '/', '/']) then 2
    else if cs.head? = some '/' then 1 else 0
  let comps := (splitOnChar '/' cs).map String.mk
  let newComps := comps.foldl (fun acc comp =>
    if comp = "" || comp = "." then acc
    else if comp ≠ ".." || (slashes = 0 && acc.isEmpty) ||
            (!acc.isEmpty && acc.getLast? = some "..") then acc ++ [comp]
    else if !acc.isEmpty then acc.dropLast
    else acc) []
  let joined := joinSep "/" newComps
  let outp := String.mk (List.replicate slashes '/') ++ joined
  if outp = "" then "." else outp

/-- Model of `posixpath.join` on two components. -/
def joinP (a b : String) : String :=
  if b.toList.head? = some '/' then b
  else if a = "" || a.toList.getLast? = some '/' then a ++ b
  else a ++ "/" ++ b

/-- Model of `os.path.abspath` relative to a current directory. -/
def abspathF (cwd p : String) : String :=
  posixNormpath (if p.toList.head? = some '/' then p else joinP cwd p)

/-- The module's `normpath`: absolute path, plus exactly one trailing
separator when the (dereferencing) `os.path.isdir` says directory. -/
def normpathF (fs : FS) (cwd p : String) : String :=
  let a := abspathF cwd p
  if isdirF fs a then a ++ "/" else a

/-! ## The module's data model -/

/-- The dict returned by `collect_path_data` for one walked entry.
`mode` is an `Int` because rule modes are arbitrary Python ints and
`apply` writes them into the record verbatim. -/
structure PathRecord where
  path : String
  mode : Int
  uid : Nat
  gid : Nat
  isdir : Bool
  isfile : Bool
deriving DecidableEq, Repr

/-- `collect_path_data(path)`: `os.lstat` for mode/uid/gid (mode masked
with `& 4095`), `os.path.isdir` for the type flags, `isfile` defined as
`not is_dir`.  A missing entry (lstat raising `OSError`) is `none`. -/
def collect_path_data (fs : FS) (p : String) : Option PathRecord :=
  match lstatF fs p with
  | none => none
  | some st =>
    let is_dir := isdirF fs p
    some { path := p, mode := (Nat.land st.mode 4095 : Nat), uid := st.uid,
           gid := st.gid, isdir := is_dir, isfile := !is_dir }

/-- A Python value accepted for `file_mode`/`dir_mode`: a native int
(e.g. YAML `0644` arrives as the int `420`, plain `644` as `644`) or a
string. -/
inductive ModeVal where
  | mint : Int → ModeVal
  | mstr : String → ModeVal
deriving DecidableEq, Repr

/-- A Python value accepted for `do_files`/`do_dirs`/`debug`: `None`,
a bool, a string, or an int. -/
inductive BoolArg where
  | pnone : BoolArg
  | pbool : Bool → BoolArg
  | pstr : String → BoolArg
  | pint : Int → BoolArg
deriving DecidableEq, Repr

/-- One declaration from the `regexp` list.  A field holding `none`
models the key being absent from the dict; `some ModeVal/…` models a
present value.  For `do_files`/`do_dirs`, a present JSON `null` is
`some BoolArg.pnone` — `try_kwarg` only substitutes the default when
the key is *missing*. -/
structure RuleDecl where
  paths : List String
  file_mode : Option ModeVal := none
  dir_mode : Option ModeVal := none
  file_owner : Option String := none
  file_group : Option String := none
  dir_owner : Option String := none
  dir_group : Option String := none
  do_files : Option BoolArg := none
  do_dirs : Option BoolArg := none
deriving DecidableEq, Repr

/-- Model of Python `int(s, 8)` on the inputs the module can meet:
optional surrounding spaces, optional sign, optional `0o`/`0O` prefix,
then at least one octal digit. -/
def pyIntOct (s : String) : Option Int :=
  let cs := ((s.toList.dropWhile (fun c => c = ' ')).reverse.dropWhile
      (fun c => c = ' ')).reverse
  let signed : Int × List Char :=
    match cs with
    | '+' :: rest => (1, rest)
    | '-' :: rest => (-1, rest)
    | _ => (1, cs)
  let ds :=
    match signed.2 with
    | '0' :: 'o' :: rest => rest
    | '0' :: 'O' :: rest => rest
    | _ => signed.2
  if ds.isEmpty then none
  else
    (ds.foldl (fun acc c =>
      match acc with
      | none => none
      | some n => if '0' ≤ c ∧ c ≤ '7' then some (n * 8 + (c.toNat - 48)) else none)
      (some (0 : Nat))).map (fun n => signed.1 * n)

/-- `to_mode`: `None` passes through; a native int is used verbatim; a
string is parsed in base 8; anything unparseable is fatal
(`fail_json('Not an integer: …')`). -/
def to_mode (v : Option ModeVal) : Except String (Option Int) :=
  match v with
  | none => Except.ok none
  | some (ModeVal.mint n) => Except.ok (some n)
  | some (ModeVal.mstr s) =>
    match pyIntOct s with
    | some n => Except.ok (some n)
    | none => Except.error ("Not an integer: " ++ s)

/-- `to_bool`: `None` and real bools are returned unchanged (so `None`
stays `None`); strings are lowercased and matched against the
truthy/falsy spellings; ints 1/0 map to True/False; anything else is
fatal (`fail_json('… is not a valid boolean!')`). -/
def to_bool (a : BoolArg) : Except String (Option Bool) :=
  match a with
  | BoolArg.pnone => Except.ok none
  | BoolArg.pbool b => Except.ok (some b)
  | BoolArg.pstr s =>
    let t := s.toLower
    if t = "y" ∨ t = "yes" ∨ t = "on" ∨ t = "1" ∨ t = "true" then
      Except.ok (some true)
    else if t = "n" ∨ t = "no" ∨ t = "off" ∨ t = "0" ∨ t = "false" then
      Except.ok (some false)
    else Except.error (t ++ " is not a valid boolean!")
  | BoolArg.pint n =>
    if n = 1 then Except.ok (some true)
    else if n = 0 then Except.ok (some false)
    else Except.error (toString n ++ " is not a valid boolean!")

/-- Python truthiness of an `Option Bool` (`None` is falsy), as used by
`if fspath['isfile'] and not self.do_files` — this is `not x`. -/
def pyNotOpt (b : Option Bool) : Bool :=
  match b with
  | some true => false
  | _ => true

/-- Python truthiness of an `Option Bool` (`if debug:`). -/
def pyTruthy (b : Option Bool) : Bool := b = some true

/-- `pwd.getpwnam`: uid lookup; `KeyError` carries the CPython message
`getpwnam(): name not found: '<name>'`. -/
def getpwnamF (users : List (String × Nat)) (name : String) : Except String Nat :=
  match lookupTab users name with
  | some uid => Except.ok uid
  | none => Except.error ("getpwnam(): name not found: '" ++ name ++ "'")

/-- `grp.getgrnam`: gid lookup, same error shape. -/
def getgrnamF (groups : List (String × Nat)) (name : String) : Except String Nat :=
  match lookupTab groups name with
  | some gid => Except.ok gid
  | none => Except.error ("getgrnam(): name not found: '" ++ name ++ "'")

/-- The `except KeyError` handler around identity resolution in
`PermissionRegex.__init__`:
`fail_json('Could not find user or group: {}'.format(e.message))`.
The model renders the Python-2 value of `e.message` (the `KeyError`
text).  Under the module's `#!/usr/bin/python3` shebang the attribute
`e.message` does not exist and this very line raises `AttributeError`
instead — see claim C4. -/
def resolveOptUser (users : List (String × Nat)) (o : Option String) :
    Except String (Option Nat) :=
  match o with
  | none => Except.ok none
  | some n =>
    Except.mapError (fun m => "Could not find user or group: " ++ m)
      (Except.map some (getpwnamF users n))

/-- Group variant of `resolveOptUser`. -/
def resolveOptGroup (groups : List (String × Nat)) (o : Option String) :
    Except String (Option Nat) :=
  match o with
  | none => Except.ok none
  | some n =>
    Except.mapError (fun m => "Could not find user or group: " ++ m)
      (Except.map some (getgrnamF groups n))

/-- One compiled rule: the state built by `PermissionRegex.__init__`.
`regex_paths` keeps the compiled pattern *strings*
`'^{root_path}{path}$'` (matching is `reMatch`). -/
structure PermissionRegex where
  paths : List String
  file_mode : Option Int
  dir_mode : Option Int
  file_owner : Option String
  file_group : Option String
  dir_owner : Option String
  dir_group : Option String
  do_files : Option Bool
  do_dirs : Option Bool
  file_uid : Option Nat
  file_gid : Option Nat
  dir_uid : Option Nat
  dir_gid : Option Nat
  regex_paths : List String
deriving DecidableEq, Repr

/-- The `re.compile('^{}{}$'.format(root_path, path))` loop: the raw
caller `root_path` text and the rule pattern are concatenated with no
separator inserted and anchored at the string level.  A pattern outside
the modelled fragment is rejected (as `re.compile` raising). -/
def compilePaths (root_path : String) : List String → Except String (List String)
  | [] => Except.ok []
  | p :: rest => do
    let full := "^" ++ root_path ++ p ++ "$"
    if validPat full.toList then
      let others ← compilePaths root_path rest
      Except.ok (full :: others)
    else Except.error ("invalid regular expression: " ++ full)

/-- `PermissionRegex.__init__(root_path, kwargs)`: parse modes, parse
the applicability flags, resolve owners/groups eagerly (failing before
any walk), compile the anchored patterns.  The evaluation order follows
the source. -/
def PermissionRegex.init (users groups : List (String × Nat))
    (root_path : String) (kw : RuleDecl) : Except String PermissionRegex := do
  let fm ← to_mode kw.file_mode
  let dm ← to_mode kw.dir_mode
  let dfs ← to_bool (kw.do_files.getD (BoolArg.pbool true))
  let dds ← to_bool (kw.do_dirs.getD (BoolArg.pbool true))
  let fuid ← resolveOptUser users kw.file_owner
  let fgid ← resolveOptGroup groups kw.file_group
  let duid ← resolveOptUser users kw.dir_owner
  let dgid ← resolveOptGroup groups kw.dir_group
  let rps ← compilePaths root_path kw.paths
  Except.ok
    { paths := kw.paths, file_mode := fm, dir_mode := dm,
      file_owner := kw.file_owner, file_group := kw.file_group,
      dir_owner := kw.dir_owner, dir_group := kw.dir_group,
      do_files := dfs, do_dirs := dds,
      file_uid := fuid, file_gid := fgid, dir_uid := duid, dir_gid := dgid,
      regex_paths := rps }

/-- `PermissionRegex.check_path`: gate on the file/dir applicability
flags (Python `not` of a possibly-`None` value), then try each compiled
pattern with `regex.match`. -/
def PermissionRegex.check_path (pr : PermissionRegex) (pd : PathRecord) : Bool :=
  if pd.isfile && pyNotOpt pr.do_files then false
  else if pd.isdir && pyNotOpt pr.do_dirs then false
  else pr.regex_paths.any (fun rx => reMatch rx pd.path)

/-- `add_to_changed_list(path)`: appends only when debug is on; the
model returns the emitted fragment. -/
def addToChangedList (debugOn : Bool) (p : String) : List String :=
  if debugOn then [p] else []

/-- One mode reconciliation step of `apply` (`os.chmod` when
`change_mode`); fires when the target is set and differs. -/
def applyModeStep (target : Option Int) (cm ch dbg : Bool) (pd : PathRecord) :
    PathRecord × Bool × List String :=
  match target with
  | some m =>
    if pd.mode ≠ m then
      ((if cm then { pd with mode := m } else pd), true, addToChangedList dbg pd.path)
    else (pd, ch, [])
  | none => (pd, ch, [])

/-- One owner reconciliation step of `apply`.  The source calls
`os.chown(path, uid, path_data['gid'])`, which rewrites the gid to its
current value — net effect: only the uid changes. -/
def applyUidStep (target : Option Nat) (cm ch dbg : Bool) (pd : PathRecord) :
    PathRecord × Bool × List String :=
  match target with
  | some u =>
    if pd.uid ≠ u then
      ((if cm then { pd with uid := u } else pd), true, addToChangedList dbg pd.path)
    else (pd, ch, [])
  | none => (pd, ch, [])

/-- One group reconciliation step of `apply` (`os.chown(path,
path_data['uid'], gid)` — only the gid changes). -/
def applyGidStep (target : Option Nat) (cm ch dbg : Bool) (pd : PathRecord) :
    PathRecord × Bool × List String :=
  match target with
  | some g =>
    if pd.gid ≠ g then
      ((if cm then { pd with gid := g } else pd), true, addToChangedList dbg pd.path)
    else (pd, ch, [])
  | none => (pd, ch, [])

/-- The three reconciliation checks of one `apply` branch, in source
order (mode, then owner, then group), each consuming the record the
previous one produced. -/
def applyChain (m : Option Int) (u g : Option Nat) (cm ch dbg : Bool)
    (pd : PathRecord) : PathRecord × Bool × List String :=
  let s1 := applyModeStep m cm ch dbg pd
  let s2 := applyUidStep u cm s1.2.1 dbg s1.1
  let s3 := applyGidStep g cm s2.2.1 dbg s2.1
  (s3.1, s3.2.1, s1.2.2 ++ (s2.2.2 ++ s3.2.2))

/-- `PermissionRegex.apply(path_data, change_mode, changed)`: for a
file record run the three file steps in source order, for a directory
record the three dir steps; otherwise leave everything alone.  Returns
the (possibly mutated) record, the `changed` accumulator, and the
fragment appended to the global `changed_list`. -/
def PermissionRegex.apply (pr : PermissionRegex) (pd : PathRecord)
    (change_mode changed dbg : Bool) : PathRecord × Bool × List String :=
  if pd.isfile then
    applyChain pr.file_mode pr.file_uid pr.file_gid change_mode changed dbg pd
  else if pd.isdir then
    applyChain pr.dir_mode pr.dir_uid pr.dir_gid change_mode changed dbg pd
  else (pd, changed, [])

/-- The inner loop of `main` for one walked entry: scan the (already
reversed) rule list, apply the first rule whose `check_path` is true,
`break`; if none matches the record is untouched. -/
def scanApply : List PermissionRegex → PathRecord → Bool → Bool → Bool →
    PathRecord × Bool × List String
  | [], pd, _, ch, _ => (pd, ch, [])
  | pr :: rest, pd, cm, ch, dbg =>
    if pr.check_path pd then pr.apply pd cm ch dbg
    else scanApply rest pd cm ch dbg

/-- The rule-construction loop of `main` with its accumulator:
`regexp.insert(0, PermissionRegex(root_path, data))` for each
declaration in order. -/
def buildRegexpAux (users groups : List (String × Nat)) (root_path : String) :
    List RuleDecl → List PermissionRegex → Except String (List PermissionRegex)
  | [], acc => Except.ok acc
  | d :: rest, acc => do
    let pr ← PermissionRegex.init users groups root_path d
    buildRegexpAux users groups root_path rest (pr :: acc)

/-- The rule list `main` scans: built by insertion at position zero, so
it is the reverse of declaration order. -/
def buildRegexp (users groups : List (String × Nat)) (root_path : String)
    (decls : List RuleDecl) : Except String (List PermissionRegex) :=
  buildRegexpAux users groups root_path decls []

/-- Declaration-order compilation of the rules (the specification's
view, to compare `buildRegexp` against). -/
def compileRules (users groups : List (String × Nat)) (root_path : String) :
    List RuleDecl → Except String (List PermissionRegex)
  | [] => Except.ok []
  | d :: rest => do
    let pr ← PermissionRegex.init users groups root_path d
    let others ← compileRules users groups root_path rest
    Except.ok (pr :: others)

/-- The walk loop of `main` over the records yielded by
`iterate_fstree`, threading the `changed` flag and collecting the
`changed_list` appends in order. -/
def runPass (rules : List PermissionRegex) (dbg cm : Bool) :
    List PathRecord → Bool → List PathRecord × Bool × List String
  | [], ch => ([], ch, [])
  | pd :: rest, ch =>
    let s := scanApply rules pd cm ch dbg
    let r := runPass rules dbg cm rest s.2.1
    (s.1 :: r.1, r.2.1, s.2.2 ++ r.2.2)

/-- The module arguments `main` reads from the JSON file.  `debugArg =
none` models the `debug` key being absent (`except KeyError`). -/
structure ModArgs where
  root_path : String
  regexp : List RuleDecl
  debugArg : Option BoolArg := none
deriving DecidableEq, Repr

/-- `main()` on a filesystem whose walk yields `tree`: parse `debug`,
require `root_path` to be a directory, build the reversed rule list
(resolving identities and compiling patterns — all before the walk),
then run the walk loop with `change_mode = True`.  Any `fail_json` is
an `Except.error` carrying its message. -/
def runMain (users groups : List (String × Nat)) (fs : FS) (args : ModArgs)
    (tree : List PathRecord) : Except String (List PathRecord × Bool × List String) := do
  let dbg ← match args.debugArg with
    | none => Except.ok false
    | some a => do
      let b ← to_bool a
      Except.ok (pyTruthy b)
  if isdirF fs args.root_path then do
    let rules ← buildRegexp users groups args.root_path args.regexp
    Except.ok (runPass rules dbg true tree false)
  else Except.error (args.root_path ++ " must be a directory")

/-! ## Specification-side mirror for the output payload (claim C8)

Modelled from the spec's words: "`changed_list` (ordered list of paths
recorded as changed, one entry per mutating attribute application)". -/

/-- Does an optional target attribute differ from the current value? -/
def optNe {α : Type} [DecidableEq α] (o : Option α) (cur : α) : Bool :=
  match o with
  | some v => cur ≠ v
  | none => false

/-- Number of attribute checks of one branch that fire on a record. -/
def chainCount (m : Option Int) (u g : Option Nat) (pd : PathRecord) : Nat :=
  (if optNe m pd.mode then 1 else 0) +
  (if optNe u pd.uid then 1 else 0) +
  (if optNe g pd.gid then 1 else 0)

/-- Number of mutating attribute applications the governing rule
performs on one entry (mode, then owner, then group, for the entry's
type). -/
def fireCount (pr : PermissionRegex) (pd : PathRecord) : Nat :=
  if pd.isfile then chainCount pr.file_mode pr.file_uid pr.file_gid pd
  else if pd.isdir then chainCount pr.dir_mode pr.dir_uid pr.dir_gid pd
  else 0

/-- Mutating attribute applications for one entry under the governing
rule (zero when no rule matches). -/
def entryCount (rules : List PermissionRegex) (pd : PathRecord) : Nat :=
  match rules.find? (fun pr => pr.check_path pd) with
  | some pr => fireCount pr pd
  | none => 0

/-- Spec-side changed list: walk order, one entry (the path) per
mutating attribute application of the governing (first-matching in the
reversed scan) rule. -/
def specChangedList (rules : List PermissionRegex) : List PathRecord → List String
  | [] => []
  | pd :: rest =>
    (match rules.find? (fun pr => pr.check_path pd) with
     | some pr => List.replicate (fireCount pr pd) pd.path
     | none => []) ++ specChangedList rules rest

/-! ## Concrete instances used by counterexamples and witnesses -/

/-- A host user table with a single user. -/
def exUsers : List (String × Nat) := [("alice", 1000)]

/-- A host group table with a single group. -/
def exGroups : List (String × Nat) := [("staff", 50)]

/-- A directory entry (`st_mode = 0o040755`). -/
def dirE : FSEntry := { mode := 16877, uid := 0, gid := 0, ftype := FType.dir }

/-- A filesystem whose root `/r` exists and is a directory. -/
def exFSr : FS := [("/r", dirE)]

/-- Filesystem for claim C5: `/app` is a directory. -/
def exFS5 : FS := [("/app", dirE)]

/-- Filesystem for claim C7: under the directory `/r` live a symlink
`/r/link` to the directory `/r/d` (the link's own lstat data is
`st_mode = 0o120777`, uid 1, gid 2) and the target directory `/r/d`
(`st_mode = 0o040755`, uid 5, gid 6). -/
def exFS7 : FS :=
  [("/r", dirE),
   ("/r/link", { mode := 41471, uid := 1, gid := 2, ftype := FType.symlink "/r/d" }),
   ("/r/d", { mode := 16877, uid := 5, gid := 6, ftype := FType.dir })]

/-- The symlink entry of `exFS7`. -/
def linkE : FSEntry := { mode := 41471, uid := 1, gid := 2, ftype := FType.symlink "/r/d" }

/-- Rule declaration whose only pattern is `"/"` (the documented way to
match the root itself). -/
def declSlash : RuleDecl := { paths := ["/"] }

/-- Rule declaration with a top-level alternation in its pattern. -/
def declAlt : RuleDecl := { paths := ["/x|/y"] }

/-- Declaration naming an owner that does not exist on the host. -/
def declBadOwner : RuleDecl := { paths := [".*"], file_owner := some "bob" }

/-- Declaration whose `file_mode` string is not octal. -/
def declBadMode : RuleDecl := { paths := [".*"], file_mode := some (ModeVal.mstr "abc") }

/-- Module arguments for claim C4 (unknown owner). -/
def argsC4 : ModArgs := { root_path := "/r", regexp := [declBadOwner] }

/-- Module arguments for claim C9 (non-octal mode string). -/
def argsC9 : ModArgs := { root_path := "/r", regexp := [declBadMode] }

/-- The normalized root record when the caller wrote `/app/`. -/
def pdRoot5 : PathRecord :=
  { path := "/app/", mode := 493, uid := 0, gid := 0, isdir := true, isfile := false }

/-- A file record under `/app` whose path continues past the first
alternation branch. -/
def pdC6 : PathRecord :=
  { path := "/app/xzz", mode := 420, uid := 0, gid := 0, isdir := false, isfile := true }

/-- A plain file record under `/r`. -/
def pdFileX : PathRecord :=
  { path := "/r/a", mode := 420, uid := 7, gid := 8, isdir := false, isfile := true }

/-- A compiled rule that matches everything under `/r` and sets
nothing. -/
def prNoAttrs : PermissionRegex :=
  { paths := [".*"], file_mode := none, dir_mode := none,
    file_owner := none, file_group := none, dir_owner := none, dir_group := none,
    do_files := some true, do_dirs := some true,
    file_uid := none, file_gid := none, dir_uid := none, dir_gid := none,
    regex_paths := ["^/r.*$"] }

/-- A compiled rule that matches everything under `/r` and sets a file
mode and owner. -/
def prMatchAll : PermissionRegex :=
  { prNoAttrs with file_mode := some 493, file_uid := some 1000 }

/-- A compiled rule excluded from files by `do_files = False`. -/
def prNoFiles : PermissionRegex :=
  { prMatchAll with do_files := some false }

/-- A compiled rule with only a file owner set. -/
def prOnlyUid : PermissionRegex :=
  { prNoAttrs with file_uid := some 1000 }

/-- The compiled rule produced by `PermissionRegex.init [] [] "/r"` on
a declaration with `paths = ["/"]` and `do_files: null` — its
`do_files` is `None`. -/
def pr10 : PermissionRegex :=
  { paths := ["/"], file_mode := none, dir_mode := none,
    file_owner := none, file_group := none, dir_owner := none, dir_group := none,
    do_files := none, do_dirs := some true,
    file_uid := none, file_gid := none, dir_uid := none, dir_gid := none,
    regex_paths := ["^/r/$"] }

/-- Declaration with an explicit `do_files: null`. -/
def d10null : RuleDecl := { paths := ["/"], do_files := some BoolArg.pnone }

/-! ## Filesystem-mutating reconciliation (for claim C3)

The record-level `runPass` above mirrors one pass's bookkeeping, but a
second *invocation* of the module re-walks the filesystem with
`os.lstat`, while `os.chmod`/`os.chown` dereference symlinks.  To
settle idempotence faithfully the pass is modelled again at
filesystem level: each record is collected from the *current*
filesystem at visit time, and the mutation steps update the
filesystem through symlink resolution.  `chmod`/`chown` never create,
rename or retype entries, so both invocations enumerate the same walk
keys; the key list stands for `iterate_fstree`'s enumeration. -/

/-- Rewrite every binding of key `q` in the table. -/
def updateTab : FS → String → (FSEntry → FSEntry) → FS
  | [], _, _ => []
  | (k0, e0) :: rest, q, f =>
    (if k0 = q then (k0, f e0) else (k0, e0)) :: updateTab rest q f

/-- `st_mode` with its low 12 permission bits replaced by `m` — what a
`chmod` leaves in the inode next to the preserved file-type bits.
(`m` is the Python int passed through; the extra masking and `toNat`
only matter outside the 0–0o7777 range, where the real call errors.) -/
def setPerm (mode : Nat) (m : Int) : Nat :=
  (mode / 4096) * 4096 + m.toNat % 4096

/-- Resolve a path key through final-component symlinks to the key of
the entry a dereferencing syscall operates on. -/
def resolveKey (fs : FS) : Nat → String → Option String
  | 0, _ => none
  | fuel + 1, p =>
    match lookupTab fs p with
    | none => none
    | some e =>
      match e.ftype with
      | FType.symlink t => resolveKey fs fuel t
      | _ => some p

/-- `os.chmod(path, m)`: dereferences symlinks and replaces the
permission bits of the target.  (An unresolvable path would raise
`OSError`; no claim reaches that case and the model leaves the
filesystem unchanged there.) -/
def chmodFS (fs : FS) (p : String) (m : Int) : FS :=
  match resolveKey fs 40 (stripSlashes p) with
  | some q => updateTab fs q (fun e => { e with mode := setPerm e.mode m })
  | none => fs

/-- `os.chown(path, uid, gid)`: dereferences symlinks and sets both
owner ids of the target. -/
def chownFS (fs : FS) (p : String) (uid gid : Nat) : FS :=
  match resolveKey fs 40 (stripSlashes p) with
  | some q => updateTab fs q (fun e => { e with uid := uid, gid := gid })
  | none => fs

/-- The mode check of `apply`, filesystem-mutating form. -/
def applyFSModeStep (target : Option Int) (cm ch dbg : Bool) (fs : FS)
    (pd : PathRecord) : FS × PathRecord × Bool × List String :=
  match target with
  | some m =>
    if pd.mode ≠ m then
      ((if cm then chmodFS fs pd.path m else fs),
       (if cm then { pd with mode := m } else pd), true,
       addToChangedList dbg pd.path)
    else (fs, pd, ch, [])
  | none => (fs, pd, ch, [])

/-- The owner check: `os.chown(path, uid, path_data['gid'])`, then
`path_data['uid'] = uid`. -/
def applyFSUidStep (target : Option Nat) (cm ch dbg : Bool) (fs : FS)
    (pd : PathRecord) : FS × PathRecord × Bool × List String :=
  match target with
  | some u =>
    if pd.uid ≠ u then
      ((if cm then chownFS fs pd.path u pd.gid else fs),
       (if cm then { pd with uid := u } else pd), true,
       addToChangedList dbg pd.path)
    else (fs, pd, ch, [])
  | none => (fs, pd, ch, [])

/-- The group check: `os.chown(path, path_data['uid'], gid)`, then
`path_data['gid'] = gid`. -/
def applyFSGidStep (target : Option Nat) (cm ch dbg : Bool) (fs : FS)
    (pd : PathRecord) : FS × PathRecord × Bool × List String :=
  match target with
  | some g =>
    if pd.gid ≠ g then
      ((if cm then chownFS fs pd.path pd.uid g else fs),
       (if cm then { pd with gid := g } else pd), true,
       addToChangedList dbg pd.path)
    else (fs, pd, ch, [])
  | none => (fs, pd, ch, [])

/-- The three checks of one `apply` branch, filesystem form. -/
def applyFSChain (m : Option Int) (u g : Option Nat) (cm ch dbg : Bool)
    (fs : FS) (pd : PathRecord) : FS × PathRecord × Bool × List String :=
  let s1 := applyFSModeStep m cm ch dbg fs pd
  let s2 := applyFSUidStep u cm s1.2.2.1 dbg s1.1 s1.2.1
  let s3 := applyFSGidStep g cm s2.2.2.1 dbg s2.1 s2.2.1
  (s3.1, s3.2.1, s3.2.2.1, s1.2.2.2 ++ (s2.2.2.2 ++ s3.2.2.2))

/-- `PermissionRegex.apply`, filesystem form. -/
def PermissionRegex.applyFS (pr : PermissionRegex) (fs : FS) (pd : PathRecord)
    (cm ch dbg : Bool) : FS × PathRecord × Bool × List String :=
  if pd.isfile then
    applyFSChain pr.file_mode pr.file_uid pr.file_gid cm ch dbg fs pd
  else if pd.isdir then
    applyFSChain pr.dir_mode pr.dir_uid pr.dir_gid cm ch dbg fs pd
  else (fs, pd, ch, [])

/-- The inner rule scan of `main`, filesystem form. -/
def scanApplyFS : List PermissionRegex → FS → PathRecord → Bool → Bool → Bool →
    FS × Bool × List String
  | [], fs, _, _, ch, _ => (fs, ch, [])
  | pr :: rest, fs, pd, cm, ch, dbg =>
    if pr.check_path pd then
      ((pr.applyFS fs pd cm ch dbg).1, (pr.applyFS fs pd cm ch dbg).2.2.1,
       (pr.applyFS fs pd cm ch dbg).2.2.2)
    else scanApplyFS rest fs pd cm ch dbg

/-- One walk key of the main loop: collect the record from the current
filesystem, then scan and apply. -/
def fsStep (rules : List PermissionRegex) (cm ch dbg : Bool) (fs : FS)
    (k : String) : FS × Bool × List String :=
  match collect_path_data fs k with
  | none => (fs, ch, [])
  | some pd => scanApplyFS rules fs pd cm ch dbg

/-- The walk loop over the enumerated keys, re-reading every entry
from the (possibly already mutated) filesystem at visit time. -/
def runPassFS (rules : List PermissionRegex) (dbg cm : Bool) :
    List String → FS → Bool → FS × Bool × List String
  | [], fs, ch => (fs, ch, [])
  | k :: rest, fs, ch =>
    let s := fsStep rules cm ch dbg fs k
    let r := runPassFS rules dbg cm rest s.1 s.2.1
    (r.1, r.2.1, s.2.2 ++ r.2.2)

/-- Is an entry a symlink? -/
def isLinkB (e : FSEntry) : Bool :=
  match e.ftype with
  | FType.symlink _ => true
  | _ => false

/-- Is an entry a directory (the dereferencing `isdir` answer for a
non-symlink entry)? -/
def isDirB (e : FSEntry) : Bool :=
  match e.ftype with
  | FType.dir => true
  | _ => false

/-- The record `collect_path_data` yields for a non-symlink entry. -/
def recordOf (k : String) (e : FSEntry) : PathRecord :=
  { path := k, mode := (Nat.land e.mode 4095 : Nat), uid := e.uid, gid := e.gid,
    isdir := isDirB e, isfile := !isDirB e }

/-- No entry of the filesystem is a symlink. -/
def noSymlinks (fs : FS) : Bool :=
  fs.all (fun kv => !isLinkB kv.2)

/-- A mode target within the masked 0–0o7777 permission range. -/
def modeOk : Option Int → Bool
  | some m => 0 ≤ m && m < 4096
  | none => true

/-- Both mode targets of a rule lie in the masked range. -/
def rangeOk (pr : PermissionRegex) : Bool :=
  modeOk pr.file_mode && modeOk pr.dir_mode

/-- The walked entry the governing rule finds nothing left to do on. -/
def keyDone (rules : List PermissionRegex) (k : String) (fs : FS) : Prop :=
  match lookupTab fs (stripSlashes k) with
  | none => True
  | some e => entryCount rules (recordOf k e) = 0

/-- Invariant threaded through one entry's attribute steps: the
filesystem stays symlink-free, the walked key still holds an entry, and
the in-memory record agrees with that entry on path, masked mode, uid
and gid. -/
def goodAt (fs : FS) (k : String) (e : FSEntry) (pd : PathRecord) : Prop :=
  lookupTab fs (stripSlashes k) = some e ∧ noSymlinks fs = true ∧
  pd.path = k ∧ pd.mode = ((Nat.land e.mode 4095 : Nat) : Int) ∧
  pd.uid = e.uid ∧ pd.gid = e.gid

/-- A regular file entry (`st_mode = 0o100644`). -/
def fileE : FSEntry := { mode := 33188, uid := 0, gid := 0, ftype := FType.file }

/-- Filesystem for the C3 counterexample: directory `/r` containing
the regular file `/r/f` and the symlink `/r/link` → `/r/f` (a
symlink's own lstat mode is `0o120777`). -/
def exFS3 : FS :=
  [("/r", dirE), ("/r/f", fileE),
   ("/r/link", { mode := 41471, uid := 0, gid := 0, ftype := FType.symlink "/r/f" })]

/-- The walk keys of `exFS3` (root with its trailing slash, then the
children; the symlink resolves to a file, so its key has no slash). -/
def keysC3 : List String := ["/r/", "/r/f", "/r/link"]

/-- A rule matching everything under `/r` that only sets a file mode
of `0o755`. -/
def prC3 : PermissionRegex := { prNoAttrs with file_mode := some 493 }

/-- The symlink-free part of `exFS3`. -/
def exFS3b : FS := [("/r", dirE), ("/r/f", fileE)]

/-- The walk keys of `exFS3b`. -/
def keysW3 : List String := ["/r/", "/r/f"]

/-- Decidable equality for `Except`, so closed facts about fallible
module calls can be settled by `decide`. -/
instance decEqExcept {ε α : Type} [DecidableEq ε] [DecidableEq α] :
    DecidableEq (Except ε α)
  | Except.error x, Except.error y =>
    if h : x = y then Decidable.isTrue (by rw [h])
    else Decidable.isFalse (by intro hc; cases hc; exact h rfl)
  | Except.error _, Except.ok _ => Decidable.isFalse (by intro hc; cases hc)
  | Except.ok _, Except.error _ => Decidable.isFalse (by intro hc; cases hc)
  | Except.ok x, Except.ok y =>
    if h : x = y then Decidable.isTrue (by rw [h])
    else Decidable.isFalse (by intro hc; cases hc; exact h rfl)

/-! ## Helper lemmas -/

/-- Destructure a successful `Except` bind. -/
theorem exc_bind_ok {ε α β : Type} {x : Except ε α} {f : α → Except ε β} {b : β}
    (h : x >>= f = Except.ok b) : ∃ a, x = Except.ok a ∧ f a = Except.ok b := by
  cases x with
  | error e => simp [Bind.bind, Except.bind] at h
  | ok a => exact ⟨a, rfl, by simpa [Bind.bind, Except.bind] using h⟩

/-- The rule-construction fold with an explicit accumulator equals
declaration-order compilation followed by reversal onto the
accumulator. -/
theorem buildRegexp_fold (users groups : List (String × Nat)) (root : String) :
    ∀ (decls : List RuleDecl) (acc : List PermissionRegex),
      buildRegexpAux users groups root decls acc =
        Except.map (fun l => l.reverse ++ acc)
          (compileRules users groups root decls) := by
  intro decls
  induction decls with
  | nil => intro acc; rfl
  | cons d rest ih =>
    intro acc
    cases hinit : PermissionRegex.init users groups root d with
    | error e =>
      simp [buildRegexpAux, compileRules, Bind.bind, Except.bind, hinit, Except.map]
    | ok pr =>
      simp only [buildRegexpAux, compileRules, Bind.bind, Except.bind, hinit]
      rw [ih (pr :: acc)]
      cases hrest : compileRules users groups root rest with
      | error e => rfl
      | ok l => simp [Except.map]

/-- If the reversed scan finds a first matching rule, the inner loop of
`main` applies exactly that rule. -/
theorem scanApply_find_some :
    ∀ (rules : List PermissionRegex) (pd : PathRecord) (cm ch dbg : Bool)
      (pr : PermissionRegex),
      rules.find? (fun q => q.check_path pd) = some pr →
      scanApply rules pd cm ch dbg = pr.apply pd cm ch dbg := by
  intro rules
  induction rules with
  | nil => intro pd cm ch dbg pr h; simp [List.find?] at h
  | cons r rest ih =>
    intro pd cm ch dbg pr h
    by_cases hc : r.check_path pd = true
    · simp only [List.find?, hc] at h
      cases h
      simp [scanApply, hc]
    · have hc' : r.check_path pd = false := by simpa using hc
      simp only [List.find?, hc'] at h
      simp only [scanApply, hc', if_false]
      exact ih pd cm ch dbg pr h

/-- If no rule's check is true, the inner loop leaves the record, the
`changed` flag and the change log alone. -/
theorem scanApply_find_none :
    ∀ (rules : List PermissionRegex) (pd : PathRecord) (cm ch dbg : Bool),
      rules.find? (fun q => q.check_path pd) = none →
      scanApply rules pd cm ch dbg = (pd, ch, []) := by
  intro rules
  induction rules with
  | nil => intro pd cm ch dbg _; rfl
  | cons r rest ih =>
    intro pd cm ch dbg h
    by_cases hc : r.check_path pd = true
    · simp only [List.find?, hc] at h
      exact Option.noConfusion h
    · have hc' : r.check_path pd = false := by simpa using hc
      simp only [List.find?, hc'] at h
      simp only [scanApply, hc', if_false]
      exact ih pd cm ch dbg h

/-- The mode step never touches path, type flags, uid or gid. -/
theorem applyModeStep_frame (t : Option Int) (cm ch dbg : Bool) (pd : PathRecord) :
    (applyModeStep t cm ch dbg pd).1.path = pd.path
    ∧ (applyModeStep t cm ch dbg pd).1.isdir = pd.isdir
    ∧ (applyModeStep t cm ch dbg pd).1.isfile = pd.isfile
    ∧ (applyModeStep t cm ch dbg pd).1.uid = pd.uid
    ∧ (applyModeStep t cm ch dbg pd).1.gid = pd.gid := by
  cases t with
  | none => simp [applyModeStep]
  | some m =>
    by_cases h : pd.mode = m <;> cases cm <;> simp [applyModeStep, h]

/-- The uid step never touches path, type flags, mode or gid. -/
theorem applyUidStep_frame (t : Option Nat) (cm ch dbg : Bool) (pd : PathRecord) :
    (applyUidStep t cm ch dbg pd).1.path = pd.path
    ∧ (applyUidStep t cm ch dbg pd).1.isdir = pd.isdir
    ∧ (applyUidStep t cm ch dbg pd).1.isfile = pd.isfile
    ∧ (applyUidStep t cm ch dbg pd).1.mode = pd.mode
    ∧ (applyUidStep t cm ch dbg pd).1.gid = pd.gid := by
  cases t with
  | none => simp [applyUidStep]
  | some u =>
    by_cases h : pd.uid = u <;> cases cm <;> simp [applyUidStep, h]

/-- The gid step never touches path, type flags, mode or uid. -/
theorem applyGidStep_frame (t : Option Nat) (cm ch dbg : Bool) (pd : PathRecord) :
    (applyGidStep t cm ch dbg pd).1.path = pd.path
    ∧ (applyGidStep t cm ch dbg pd).1.isdir = pd.isdir
    ∧ (applyGidStep t cm ch dbg pd).1.isfile = pd.isfile
    ∧ (applyGidStep t cm ch dbg pd).1.mode = pd.mode
    ∧ (applyGidStep t cm ch dbg pd).1.uid = pd.uid := by
  cases t with
  | none => simp [applyGidStep]
  | some g =>
    by_cases h : pd.gid = g <;> cases cm <;> simp [applyGidStep, h]

/-- Mode step result: target written under `change_mode` when it fires,
otherwise the mode is untouched. -/
theorem applyModeStep_mode (t : Option Int) (cm ch dbg : Bool) (pd : PathRecord) :
    (applyModeStep t cm ch dbg pd).1.mode =
      (if cm && optNe t pd.mode then t.getD pd.mode else pd.mode) := by
  cases t with
  | none => simp [applyModeStep, optNe]
  | some m =>
    by_cases h : pd.mode = m <;> cases cm <;> simp [applyModeStep, optNe, h]

/-- Uid step result. -/
theorem applyUidStep_uid (t : Option Nat) (cm ch dbg : Bool) (pd : PathRecord) :
    (applyUidStep t cm ch dbg pd).1.uid =
      (if cm && optNe t pd.uid then t.getD pd.uid else pd.uid) := by
  cases t with
  | none => simp [applyUidStep, optNe]
  | some u =>
    by_cases h : pd.uid = u <;> cases cm <;> simp [applyUidStep, optNe, h]

/-- Gid step result. -/
theorem applyGidStep_gid (t : Option Nat) (cm ch dbg : Bool) (pd : PathRecord) :
    (applyGidStep t cm ch dbg pd).1.gid =
      (if cm && optNe t pd.gid then t.getD pd.gid else pd.gid) := by
  cases t with
  | none => simp [applyGidStep, optNe]
  | some g =>
    by_cases h : pd.gid = g <;> cases cm <;> simp [applyGidStep, optNe, h]

/-- Mode step bookkeeping: `changed` accumulates a disjunct exactly
when the step fires, and one log entry (under debug) is emitted per
firing step. -/
theorem applyModeStep_book (t : Option Int) (cm ch dbg : Bool) (pd : PathRecord) :
    (applyModeStep t cm ch dbg pd).2.1 = (ch || optNe t pd.mode)
    ∧ (applyModeStep t cm ch dbg pd).2.2 =
        (if optNe t pd.mode then addToChangedList dbg pd.path else []) := by
  cases t with
  | none => simp [applyModeStep, optNe]
  | some m =>
    by_cases h : pd.mode = m <;> cases cm <;> simp [applyModeStep, optNe, h]

/-- Uid step bookkeeping. -/
theorem applyUidStep_book (t : Option Nat) (cm ch dbg : Bool) (pd : PathRecord) :
    (applyUidStep t cm ch dbg pd).2.1 = (ch || optNe t pd.uid)
    ∧ (applyUidStep t cm ch dbg pd).2.2 =
        (if optNe t pd.uid then addToChangedList dbg pd.path else []) := by
  cases t with
  | none => simp [applyUidStep, optNe]
  | some u =>
    by_cases h : pd.uid = u <;> cases cm <;> simp [applyUidStep, optNe, h]

/-- Gid step bookkeeping. -/
theorem applyGidStep_book (t : Option Nat) (cm ch dbg : Bool) (pd : PathRecord) :
    (applyGidStep t cm ch dbg pd).2.1 = (ch || optNe t pd.gid)
    ∧ (applyGidStep t cm ch dbg pd).2.2 =
        (if optNe t pd.gid then addToChangedList dbg pd.path else []) := by
  cases t with
  | none => simp [applyGidStep, optNe]
  | some g =>
    by_cases h : pd.gid = g <;> cases cm <;> simp [applyGidStep, optNe, h]

/-- After an applying (`change_mode = true`) mode step, a second mode
step with the same target does nothing. -/
theorem applyModeStep_idem (t : Option Int) (ch dbg ch2 dbg2 : Bool) (pd : PathRecord) :
    applyModeStep t true ch2 dbg2 (applyModeStep t true ch dbg pd).1 =
      ((applyModeStep t true ch dbg pd).1, ch2, []) := by
  cases t with
  | none => simp [applyModeStep]
  | some m =>
    by_cases h : pd.mode = m <;> simp [applyModeStep, h]

/-- After an applying uid step, a second uid step with the same target
does nothing. -/
theorem applyUidStep_idem (t : Option Nat) (ch dbg ch2 dbg2 : Bool) (pd : PathRecord) :
    applyUidStep t true ch2 dbg2 (applyUidStep t true ch dbg pd).1 =
      ((applyUidStep t true ch dbg pd).1, ch2, []) := by
  cases t with
  | none => simp [applyUidStep]
  | some u =>
    by_cases h : pd.uid = u <;> simp [applyUidStep, h]

/-- After an applying gid step, a second gid step with the same target
does nothing. -/
theorem applyGidStep_idem (t : Option Nat) (ch dbg ch2 dbg2 : Bool) (pd : PathRecord) :
    applyGidStep t true ch2 dbg2 (applyGidStep t true ch dbg pd).1 =
      ((applyGidStep t true ch dbg pd).1, ch2, []) := by
  cases t with
  | none => simp [applyGidStep]
  | some g =>
    by_cases h : pd.gid = g <;> simp [applyGidStep, h]

/-- A mode step whose check does not fire returns everything
unchanged. -/
theorem applyModeStep_nofire (t : Option Int) (cm ch dbg : Bool) (pd : PathRecord)
    (h : optNe t pd.mode = false) : applyModeStep t cm ch dbg pd = (pd, ch, []) := by
  cases t with
  | none => rfl
  | some m =>
    have : pd.mode = m := by simpa [optNe] using h
    simp [applyModeStep, this]

/-- A uid step whose check does not fire returns everything
unchanged. -/
theorem applyUidStep_nofire (t : Option Nat) (cm ch dbg : Bool) (pd : PathRecord)
    (h : optNe t pd.uid = false) : applyUidStep t cm ch dbg pd = (pd, ch, []) := by
  cases t with
  | none => rfl
  | some u =>
    have : pd.uid = u := by simpa [optNe] using h
    simp [applyUidStep, this]

/-- A gid step whose check does not fire returns everything
unchanged. -/
theorem applyGidStep_nofire (t : Option Nat) (cm ch dbg : Bool) (pd : PathRecord)
    (h : optNe t pd.gid = false) : applyGidStep t cm ch dbg pd = (pd, ch, []) := by
  cases t with
  | none => rfl
  | some g =>
    have : pd.gid = g := by simpa [optNe] using h
    simp [applyGidStep, this]

/-- The three-step chain never touches path or the type flags. -/
theorem applyChain_frame (m : Option Int) (u g : Option Nat) (cm ch dbg : Bool)
    (pd : PathRecord) :
    (applyChain m u g cm ch dbg pd).1.path = pd.path
    ∧ (applyChain m u g cm ch dbg pd).1.isdir = pd.isdir
    ∧ (applyChain m u g cm ch dbg pd).1.isfile = pd.isfile := by
  dsimp only [applyChain]
  refine ⟨?_, ?_, ?_⟩
  · rw [(applyGidStep_frame _ _ _ _ _).1, (applyUidStep_frame _ _ _ _ _).1,
      (applyModeStep_frame _ _ _ _ _).1]
  · rw [(applyGidStep_frame _ _ _ _ _).2.1, (applyUidStep_frame _ _ _ _ _).2.1,
      (applyModeStep_frame _ _ _ _ _).2.1]
  · rw [(applyGidStep_frame _ _ _ _ _).2.2.1, (applyUidStep_frame _ _ _ _ _).2.2.1,
      (applyModeStep_frame _ _ _ _ _).2.2.1]

/-- Resulting mode of the chain. -/
theorem applyChain_mode (m : Option Int) (u g : Option Nat) (cm ch dbg : Bool)
    (pd : PathRecord) :
    (applyChain m u g cm ch dbg pd).1.mode =
      (if cm && optNe m pd.mode then m.getD pd.mode else pd.mode) := by
  dsimp only [applyChain]
  rw [(applyGidStep_frame _ _ _ _ _).2.2.2.1, (applyUidStep_frame _ _ _ _ _).2.2.2.1,
    applyModeStep_mode]

/-- Resulting uid of the chain. -/
theorem applyChain_uid (m : Option Int) (u g : Option Nat) (cm ch dbg : Bool)
    (pd : PathRecord) :
    (applyChain m u g cm ch dbg pd).1.uid =
      (if cm && optNe u pd.uid then u.getD pd.uid else pd.uid) := by
  dsimp only [applyChain]
  rw [(applyGidStep_frame _ _ _ _ _).2.2.2.2, applyUidStep_uid,
    (applyModeStep_frame _ _ _ _ _).2.2.2.1]

/-- Resulting gid of the chain. -/
theorem applyChain_gid (m : Option Int) (u g : Option Nat) (cm ch dbg : Bool)
    (pd : PathRecord) :
    (applyChain m u g cm ch dbg pd).1.gid =
      (if cm && optNe g pd.gid then g.getD pd.gid else pd.gid) := by
  dsimp only [applyChain]
  rw [applyGidStep_gid, (applyUidStep_frame _ _ _ _ _).2.2.2.2,
    (applyModeStep_frame _ _ _ _ _).2.2.2.2]

/-- Firing disjunction versus the per-entry count. -/
theorem chainCount_or (m : Option Int) (u g : Option Nat) (pd : PathRecord) :
    (optNe m pd.mode || optNe u pd.uid || optNe g pd.gid) =
      !(chainCount m u g pd == 0) := by
  rcases h1 : optNe m pd.mode <;> rcases h2 : optNe u pd.uid <;>
    rcases h3 : optNe g pd.gid <;> simp [chainCount, h1, h2, h3]

/-- Chain bookkeeping: the `changed` flag picks up exactly the firing
checks, and under debug the log gets the record's path once per firing
check (in order). -/
theorem applyChain_book (m : Option Int) (u g : Option Nat) (cm ch dbg : Bool)
    (pd : PathRecord) :
    (applyChain m u g cm ch dbg pd).2.1 =
      (ch || (optNe m pd.mode || optNe u pd.uid || optNe g pd.gid))
    ∧ (applyChain m u g cm ch dbg pd).2.2 =
        (if dbg then List.replicate (chainCount m u g pd) pd.path else []) := by
  dsimp only [applyChain]
  have hmf := applyModeStep_frame m cm ch dbg pd
  have hmb := applyModeStep_book m cm ch dbg pd
  have hub := applyUidStep_book u cm (applyModeStep m cm ch dbg pd).2.1 dbg
    (applyModeStep m cm ch dbg pd).1
  have huf := applyUidStep_frame u cm (applyModeStep m cm ch dbg pd).2.1 dbg
    (applyModeStep m cm ch dbg pd).1
  have hgb := applyGidStep_book g cm
    (applyUidStep u cm (applyModeStep m cm ch dbg pd).2.1 dbg
      (applyModeStep m cm ch dbg pd).1).2.1 dbg
    (applyUidStep u cm (applyModeStep m cm ch dbg pd).2.1 dbg
      (applyModeStep m cm ch dbg pd).1).1
  constructor
  · rw [hgb.1, huf.2.2.2.2, hmf.2.2.2.2, hub.1, hmf.2.2.2.1, hmb.1]
    simp [Bool.or_assoc]
  · rw [hgb.2, huf.2.2.2.2, hmf.2.2.2.2, huf.1, hmf.1, hub.2, hmf.2.2.2.1, hmf.1, hmb.2]
    rcases h1 : optNe m pd.mode <;> rcases h2 : optNe u pd.uid <;>
      rcases h3 : optNe g pd.gid <;> cases dbg <;>
      simp [chainCount, h1, h2, h3, addToChangedList, List.replicate]

/-- Running the chain twice in apply mode: the second run changes
nothing, reports no change and logs nothing. -/
theorem applyChain_idem (m : Option Int) (u g : Option Nat) (ch dbg ch2 dbg2 : Bool)
    (pd : PathRecord) :
    applyChain m u g true ch2 dbg2 (applyChain m u g true ch dbg pd).1 =
      ((applyChain m u g true ch dbg pd).1, ch2, []) := by
  have hm : optNe m (applyChain m u g true ch dbg pd).1.mode = false := by
    rw [applyChain_mode]
    cases m with
    | none => simp [optNe]
    | some m0 => by_cases h0 : pd.mode = m0 <;> simp [optNe, h0]
  have hu : optNe u (applyChain m u g true ch dbg pd).1.uid = false := by
    rw [applyChain_uid]
    cases u with
    | none => simp [optNe]
    | some u0 => by_cases h0 : pd.uid = u0 <;> simp [optNe, h0]
  have hg : optNe g (applyChain m u g true ch dbg pd).1.gid = false := by
    rw [applyChain_gid]
    cases g with
    | none => simp [optNe]
    | some g0 => by_cases h0 : pd.gid = g0 <;> simp [optNe, h0]
  conv_lhs => rw [applyChain]
  rw [applyModeStep_nofire _ _ _ _ _ hm]
  dsimp only
  rw [applyUidStep_nofire _ _ _ _ _ hu]
  dsimp only
  rw [applyGidStep_nofire _ _ _ _ _ hg]
  rfl

/-- Two path records agreeing on every field are equal. -/
theorem pathRecordExt (a b : PathRecord) (hp : a.path = b.path)
    (hm : a.mode = b.mode) (hu : a.uid = b.uid) (hg : a.gid = b.gid)
    (hd : a.isdir = b.isdir) (hf : a.isfile = b.isfile) : a = b := by
  cases a; cases b; simp_all

/-- The chain's record result does not depend on the incoming `changed`
flag or the debug flag. -/
theorem applyChain_fst_const (m : Option Int) (u g : Option Nat)
    (cm ch dbg ch2 dbg2 : Bool) (pd : PathRecord) :
    (applyChain m u g cm ch dbg pd).1 = (applyChain m u g cm ch2 dbg2 pd).1 := by
  apply pathRecordExt
  · rw [(applyChain_frame _ _ _ _ _ _ _).1, (applyChain_frame _ _ _ _ _ _ _).1]
  · rw [applyChain_mode, applyChain_mode]
  · rw [applyChain_uid, applyChain_uid]
  · rw [applyChain_gid, applyChain_gid]
  · rw [(applyChain_frame _ _ _ _ _ _ _).2.1, (applyChain_frame _ _ _ _ _ _ _).2.1]
  · rw [(applyChain_frame _ _ _ _ _ _ _).2.2, (applyChain_frame _ _ _ _ _ _ _).2.2]

/-- The chain with no attribute set is the identity on everything. -/
theorem applyChain_none (cm ch dbg : Bool) (pd : PathRecord) :
    applyChain none none none cm ch dbg pd = (pd, ch, []) := rfl

/-- `apply` never touches path or type flags. -/
theorem apply_frame (pr : PermissionRegex) (pd : PathRecord) (cm ch dbg : Bool) :
    (pr.apply pd cm ch dbg).1.path = pd.path
    ∧ (pr.apply pd cm ch dbg).1.isdir = pd.isdir
    ∧ (pr.apply pd cm ch dbg).1.isfile = pd.isfile := by
  unfold PermissionRegex.apply
  split
  · exact applyChain_frame _ _ _ _ _ _ _
  · split
    · exact applyChain_frame _ _ _ _ _ _ _
    · exact ⟨rfl, rfl, rfl⟩

/-- `apply` bookkeeping in terms of the per-entry firing count. -/
theorem apply_book (pr : PermissionRegex) (pd : PathRecord) (cm ch dbg : Bool) :
    (pr.apply pd cm ch dbg).2.1 = (ch || !(fireCount pr pd == 0))
    ∧ (pr.apply pd cm ch dbg).2.2 =
        (if dbg then List.replicate (fireCount pr pd) pd.path else []) := by
  by_cases hf : pd.isfile = true
  · simp only [PermissionRegex.apply, fireCount, hf, if_true]
    refine ⟨?_, (applyChain_book _ _ _ _ _ _ _).2⟩
    rw [(applyChain_book _ _ _ _ _ _ _).1, chainCount_or]
  · have hf' : pd.isfile = false := by simpa using hf
    by_cases hd : pd.isdir = true
    · simp only [PermissionRegex.apply, fireCount, hf', hd, if_true, Bool.false_eq_true,
        if_false]
      refine ⟨?_, (applyChain_book _ _ _ _ _ _ _).2⟩
      rw [(applyChain_book _ _ _ _ _ _ _).1, chainCount_or]
    · have hd' : pd.isdir = false := by simpa using hd
      simp [PermissionRegex.apply, fireCount, hf', hd']

/-- Applying the same rule twice (apply mode): the second call changes
nothing, reports no change and logs nothing. -/
theorem apply_idem (pr : PermissionRegex) (pd : PathRecord) (ch dbg ch2 dbg2 : Bool) :
    pr.apply (pr.apply pd true ch dbg).1 true ch2 dbg2 =
      ((pr.apply pd true ch dbg).1, ch2, []) := by
  by_cases hf : pd.isfile = true
  · have h1 : pr.apply pd true ch dbg =
        applyChain pr.file_mode pr.file_uid pr.file_gid true ch dbg pd := by
      simp [PermissionRegex.apply, hf]
    have hfr := applyChain_frame pr.file_mode pr.file_uid pr.file_gid true ch dbg pd
    have hf2 : (applyChain pr.file_mode pr.file_uid pr.file_gid true ch dbg pd).1.isfile
        = true := by rw [hfr.2.2, hf]
    have h2 : pr.apply (applyChain pr.file_mode pr.file_uid pr.file_gid true ch dbg pd).1
        true ch2 dbg2 =
        applyChain pr.file_mode pr.file_uid pr.file_gid true ch2 dbg2
          (applyChain pr.file_mode pr.file_uid pr.file_gid true ch dbg pd).1 := by
      simp [PermissionRegex.apply, hf2]
    rw [h1, h2, applyChain_idem]
  · have hf' : pd.isfile = false := by simpa using hf
    by_cases hd : pd.isdir = true
    · have h1 : pr.apply pd true ch dbg =
          applyChain pr.dir_mode pr.dir_uid pr.dir_gid true ch dbg pd := by
        simp [PermissionRegex.apply, hf', hd]
      have hfr := applyChain_frame pr.dir_mode pr.dir_uid pr.dir_gid true ch dbg pd
      have hf2 : (applyChain pr.dir_mode pr.dir_uid pr.dir_gid true ch dbg pd).1.isfile
          = false := by rw [hfr.2.2, hf']
      have hd2 : (applyChain pr.dir_mode pr.dir_uid pr.dir_gid true ch dbg pd).1.isdir
          = true := by rw [hfr.2.1, hd]
      have h2 : pr.apply (applyChain pr.dir_mode pr.dir_uid pr.dir_gid true ch dbg pd).1
          true ch2 dbg2 =
          applyChain pr.dir_mode pr.dir_uid pr.dir_gid true ch2 dbg2
            (applyChain pr.dir_mode pr.dir_uid pr.dir_gid true ch dbg pd).1 := by
        simp [PermissionRegex.apply, hf2, hd2]
      rw [h1, h2, applyChain_idem]
    · have hd' : pd.isdir = false := by simpa using hd
      have h1 : pr.apply pd true ch dbg = (pd, ch, []) := by
        simp [PermissionRegex.apply, hf', hd']
      rw [h1]
      simp [PermissionRegex.apply, hf', hd']

/-- `check_path` only reads the path and the type flags, so it cannot
distinguish a record from its reconciled version. -/
theorem check_path_congr (pr : PermissionRegex) (pd pd' : PathRecord)
    (hp : pd'.path = pd.path) (hd : pd'.isdir = pd.isdir)
    (hf : pd'.isfile = pd.isfile) :
    pr.check_path pd' = pr.check_path pd := by
  simp [PermissionRegex.check_path, hp, hd, hf]

/-- A second scan of the record produced by a first (applying) scan
changes nothing. -/
theorem scanApply_idem (rules : List PermissionRegex) (pd : PathRecord)
    (ch dbg ch2 dbg2 : Bool) :
    scanApply rules (scanApply rules pd true ch dbg).1 true ch2 dbg2 =
      ((scanApply rules pd true ch dbg).1, ch2, []) := by
  cases hfind : rules.find? (fun q => q.check_path pd) with
  | none =>
    rw [scanApply_find_none rules pd true ch dbg hfind]
    exact scanApply_find_none rules pd true ch2 dbg2 hfind
  | some pr =>
    rw [scanApply_find_some rules pd true ch dbg pr hfind]
    have hfr := apply_frame pr pd true ch dbg
    have hpred : (fun q : PermissionRegex => q.check_path (pr.apply pd true ch dbg).1) =
        (fun q : PermissionRegex => q.check_path pd) :=
      funext (fun r => check_path_congr r pd (pr.apply pd true ch dbg).1
        hfr.1 hfr.2.1 hfr.2.2)
    have hfind2 : rules.find?
        (fun q => q.check_path (pr.apply pd true ch dbg).1) = some pr := by
      rw [hpred]; exact hfind
    rw [scanApply_find_some rules _ true ch2 dbg2 pr hfind2]
    exact apply_idem pr pd ch dbg ch2 dbg2

/-- Scan bookkeeping in terms of the per-entry count. -/
theorem scanApply_book (rules : List PermissionRegex) (pd : PathRecord)
    (cm ch dbg : Bool) :
    (scanApply rules pd cm ch dbg).2.1 = (ch || !(entryCount rules pd == 0))
    ∧ (scanApply rules pd cm ch dbg).2.2 =
        (if dbg then List.replicate (entryCount rules pd) pd.path else []) := by
  cases hfind : rules.find? (fun q => q.check_path pd) with
  | none =>
    rw [scanApply_find_none rules pd cm ch dbg hfind]
    simp [entryCount, hfind]
  | some pr =>
    rw [scanApply_find_some rules pd cm ch dbg pr hfind]
    simpa [entryCount, hfind] using apply_book pr pd cm ch dbg

/-- The head fragment of the spec-side changed list. -/
theorem specChangedList_cons (rules : List PermissionRegex) (pd : PathRecord)
    (rest : List PathRecord) :
    specChangedList rules (pd :: rest) =
      List.replicate (entryCount rules pd) pd.path ++ specChangedList rules rest := by
  have : (match rules.find? (fun pr => pr.check_path pd) with
      | some pr => List.replicate (fireCount pr pd) pd.path
      | none => []) = List.replicate (entryCount rules pd) pd.path := by
    cases hfind : rules.find? (fun pr => pr.check_path pd) <;>
      simp [entryCount, hfind]
  rw [specChangedList, this]

/-- Emptiness of a replicated block followed by a list. -/
theorem repAppend_isEmpty (n : Nat) (p : String) (l : List String) :
    (List.replicate n p ++ l).isEmpty = ((n == 0) && l.isEmpty) := by
  cases n <;> cases l <;> simp [List.replicate, List.isEmpty]

/-- A second full pass over the tree a first (applying) pass produced
returns that tree unchanged, with no change reported and nothing
logged. -/
theorem runPass_second (rules : List PermissionRegex) (dbg dbg2 : Bool) :
    ∀ (tree : List PathRecord) (ch ch2 : Bool),
      runPass rules dbg2 true (runPass rules dbg true tree ch).1 ch2 =
        ((runPass rules dbg true tree ch).1, ch2, []) := by
  intro tree
  induction tree with
  | nil => intro ch ch2; rfl
  | cons pd rest ih =>
    intro ch ch2
    dsimp only [runPass]
    rw [scanApply_idem rules pd ch dbg ch2 dbg2]
    dsimp only
    rw [ih ((scanApply rules pd true ch dbg).2.1) ch2]
    rfl

/-- Pass bookkeeping: the final flag and log against the spec-side
changed list. -/
theorem runPass_book (rules : List PermissionRegex) (dbg cm : Bool) :
    ∀ (tree : List PathRecord) (ch : Bool),
      (runPass rules dbg cm tree ch).2.1 =
        (ch || !(specChangedList rules tree).isEmpty)
      ∧ (runPass rules dbg cm tree ch).2.2 =
          (if dbg then specChangedList rules tree else []) := by
  intro tree
  induction tree with
  | nil => intro ch; simp [runPass, specChangedList]
  | cons pd rest ih =>
    intro ch
    dsimp only [runPass]
    have hs := scanApply_book rules pd cm ch dbg
    constructor
    · rw [(ih _).1, hs.1, specChangedList_cons, repAppend_isEmpty]
      simp [Bool.or_assoc]
    · rw [(ih _).2, hs.2, specChangedList_cons]
      cases dbg <;> simp

/-- A successful `PermissionRegex.init` stores exactly the `to_bool`
result for `do_files` (with `try_kwarg`'s default only for a missing
key). -/
theorem init_do_files (users groups : List (String × Nat)) (root : String)
    (d : RuleDecl) (pr : PermissionRegex)
    (h : PermissionRegex.init users groups root d = Except.ok pr) :
    to_bool (d.do_files.getD (BoolArg.pbool true)) = Except.ok pr.do_files := by
  unfold PermissionRegex.init at h
  obtain ⟨fm, hfm, h⟩ := exc_bind_ok h
  obtain ⟨dm, hdm, h⟩ := exc_bind_ok h
  obtain ⟨dfs, hdfs, h⟩ := exc_bind_ok h
  obtain ⟨dds, hdds, h⟩ := exc_bind_ok h
  obtain ⟨fuid, hfuid, h⟩ := exc_bind_ok h
  obtain ⟨fgid, hfgid, h⟩ := exc_bind_ok h
  obtain ⟨duid, hduid, h⟩ := exc_bind_ok h
  obtain ⟨dgid, hdgid, h⟩ := exc_bind_ok h
  obtain ⟨rps, hrps, h⟩ := exc_bind_ok h
  injection h with h2
  rw [← h2]
  exact hdfs

/-- A successful `PermissionRegex.init` stores exactly the `to_bool`
result for `do_dirs`. -/
theorem init_do_dirs (users groups : List (String × Nat)) (root : String)
    (d : RuleDecl) (pr : PermissionRegex)
    (h : PermissionRegex.init users groups root d = Except.ok pr) :
    to_bool (d.do_dirs.getD (BoolArg.pbool true)) = Except.ok pr.do_dirs := by
  unfold PermissionRegex.init at h
  obtain ⟨fm, hfm, h⟩ := exc_bind_ok h
  obtain ⟨dm, hdm, h⟩ := exc_bind_ok h
  obtain ⟨dfs, hdfs, h⟩ := exc_bind_ok h
  obtain ⟨dds, hdds, h⟩ := exc_bind_ok h
  obtain ⟨fuid, hfuid, h⟩ := exc_bind_ok h
  obtain ⟨fgid, hfgid, h⟩ := exc_bind_ok h
  obtain ⟨duid, hduid, h⟩ := exc_bind_ok h
  obtain ⟨dgid, hdgid, h⟩ := exc_bind_ok h
  obtain ⟨rps, hrps, h⟩ := exc_bind_ok h
  injection h with h2
  rw [← h2]
  exact hdds

/-! ### Matcher equations and anchoring lemmas -/

/-- Equation: matching `^` mid-scan. -/
theorem seqEnds_caret (rest s : List Char) (i : Nat) :
    seqEnds ('^' :: rest) s i = (if i = 0 then seqEnds rest s i else []) := by
  rw [seqEnds.eq_def]
  simp

/-- Equation: matching `$` mid-scan. -/
theorem seqEnds_dollar (rest s : List Char) (i : Nat) :
    seqEnds ('$' :: rest) s i = (if atEndOrNl s i then seqEnds rest s i else []) := by
  rw [seqEnds.eq_def]
  simp

/-- Equation: a starred atom. -/
theorem seqEnds_star (c : Char) (rest2 s : List Char) (i : Nat)
    (hc1 : c ≠ '^') (hc2 : c ≠ '$') :
    seqEnds (c :: '*' :: rest2) s i =
      (starP c s i).flatMap (fun j => seqEnds rest2 s j) := by
  simp [seqEnds, hc1, hc2]

/-- Equation: a final unstarred atom. -/
theorem seqEnds_one (c : Char) (s : List Char) (i : Nat)
    (hc1 : c ≠ '^') (hc2 : c ≠ '$') :
    seqEnds [c] s i = (if atomM c s i then [i + 1] else []) := by
  simp [seqEnds, hc1, hc2]

/-- Equation: an unstarred atom followed by more pattern. -/
theorem seqEnds_atom (c c2 : Char) (rest2 s : List Char) (i : Nat)
    (hc1 : c ≠ '^') (hc2 : c ≠ '$') (hc3 : c2 ≠ '*') :
    seqEnds (c :: c2 :: rest2) s i =
      (if atomM c s i then seqEnds (c2 :: rest2) s (i + 1) else []) := by
  simp [seqEnds, hc1, hc2, hc3]

/-- Equation: the empty pattern. -/
theorem seqEnds_nil (s : List Char) (i : Nat) : seqEnds [] s i = [i] := rfl

/-- Matching a bare `$`. -/
theorem dollar_only (s : List Char) (i j : Nat) :
    j ∈ seqEnds ['$'] s i ↔ (j = i ∧ atEndOrNl s j = true) := by
  rw [seqEnds_dollar]
  by_cases hend : atEndOrNl s i = true
  · rw [if_pos hend, seqEnds_nil]
    constructor
    · intro hj
      simp only [List.mem_singleton] at hj
      exact ⟨hj, hj ▸ hend⟩
    · rintro ⟨hj, _⟩
      simp [hj]
  · rw [if_neg hend]
    constructor
    · intro hj
      exact absurd hj (List.not_mem_nil j)
    · rintro ⟨rfl, h2⟩
      exact absurd h2 hend

/-- Appending `$` to a pattern keeps exactly those matches that end at
the end of the text (or just before one trailing newline). -/
theorem seqEnds_append_dollar :
    ∀ (n : Nat) (pat s : List Char) (i j : Nat), pat.length ≤ n →
      (j ∈ seqEnds (pat ++ ['$']) s i ↔
        (j ∈ seqEnds pat s i ∧ atEndOrNl s j = true)) := by
  intro n
  induction n with
  | zero =>
    intro pat s i j hlen
    have hp : pat = [] := List.length_eq_zero.mp (Nat.le_zero.mp hlen)
    subst hp
    rw [List.nil_append, seqEnds_nil]
    rw [dollar_only]
    simp
  | succ n ih =>
    intro pat s i j hlen
    cases pat with
    | nil =>
      rw [List.nil_append, seqEnds_nil, dollar_only]
      simp
    | cons c rest =>
      rw [List.cons_append]
      by_cases hc1 : c = '^'
      · subst hc1
        rw [seqEnds_caret, seqEnds_caret]
        by_cases hi : i = 0
        · rw [if_pos hi, if_pos hi]
          exact ih rest s i j (by simpa using Nat.succ_le_succ_iff.mp (by simpa using hlen))
        · rw [if_neg hi, if_neg hi]
          simp
      · by_cases hc2 : c = '$'
        · subst hc2
          rw [seqEnds_dollar, seqEnds_dollar]
          by_cases hend : atEndOrNl s i = true
          · rw [if_pos hend, if_pos hend]
            exact ih rest s i j (by simpa using Nat.succ_le_succ_iff.mp (by simpa using hlen))
          · rw [if_neg hend, if_neg hend]
            simp
        · cases rest with
          | nil =>
            rw [List.nil_append]
            rw [seqEnds_atom c '$' [] s i hc1 hc2 (by decide),
              seqEnds_one c s i hc1 hc2]
            by_cases hat : atomM c s i = true
            · rw [if_pos hat, if_pos hat]
              rw [dollar_only]
              simp
            · rw [if_neg hat, if_neg hat]
              simp
          | cons c2 rest2 =>
            by_cases hst : c2 = '*'
            · subst hst
              rw [List.cons_append]
              rw [seqEnds_star c (rest2 ++ ['$']) s i hc1 hc2,
                seqEnds_star c rest2 s i hc1 hc2]
              simp only [List.mem_flatMap]
              have hlen2 : rest2.length ≤ n := by
                simp only [List.length_cons] at hlen
                omega
              constructor
              · rintro ⟨k, hk, hj⟩
                have h2 := (ih rest2 s k j hlen2).mp hj
                exact ⟨⟨k, hk, h2.1⟩, h2.2⟩
              · rintro ⟨⟨k, hk, hj⟩, hend⟩
                exact ⟨k, hk, (ih rest2 s k j hlen2).mpr ⟨hj, hend⟩⟩
            · rw [List.cons_append]
              rw [seqEnds_atom c c2 (rest2 ++ ['$']) s i hc1 hc2 hst,
                seqEnds_atom c c2 rest2 s i hc1 hc2 hst]
              have hlen2 : (c2 :: rest2).length ≤ n := by
                simp only [List.length_cons] at hlen ⊢
                omega
              by_cases hat : atomM c s i = true
              · rw [if_pos hat, if_pos hat]
                have := ih (c2 :: rest2) s (i + 1) j hlen2
                rw [List.cons_append] at this
                exact this
              · rw [if_neg hat, if_neg hat]
                simp

/-- A pattern without `|` is a single alternative. -/
theorem splitAlts_no_alt :
    ∀ (cs : List Char), '|' ∉ cs → splitAlts cs = [cs] := by
  intro cs
  induction cs with
  | nil => intro _; rfl
  | cons c rest ih =>
    intro h
    have hc : c ≠ '|' := fun hc => h (hc ▸ List.mem_cons_self c rest)
    have hr : '|' ∉ rest := fun hr => h (List.mem_cons_of_mem c hr)
    simp [splitAlts, hc, ih hr]

/-- `String.toList` distributes over append. -/
theorem str_toList_append (a b : String) : (a ++ b).toList = a.toList ++ b.toList := rfl

/-- Strings with the same character list are equal. -/
theorem strExt (a b : String) (h : a.toList = b.toList) : a = b := by
  cases a; cases b
  simp only [String.toList] at h
  rw [h]

/-- Nonemptiness of an end-position list. -/
theorem notIsEmpty_iff (l : List Nat) : (!l.isEmpty) = true ↔ ∃ j, j ∈ l := by
  cases l <;> simp

/-- The module's anchored compile `'^{…}$'` for an alternation-free
middle: a match is exactly a scan of the middle from position 0 ending
at the end of the candidate (or just before one trailing newline). -/
theorem reMatch_anchored (mid s : String) (halt : '|' ∉ mid.toList) :
    reMatch ("^" ++ mid ++ "$") s = true ↔
      ∃ j, j ∈ seqEnds mid.toList s.toList 0 ∧ atEndOrNl s.toList j = true := by
  have hlist : ("^" ++ mid ++ "$").toList = '^' :: (mid.toList ++ ['$']) := by
    rw [str_toList_append, str_toList_append]
    rfl
  have hsplit : splitAlts (("^" ++ mid ++ "$").toList) =
      [('^' :: (mid.toList ++ ['$']))] := by
    rw [hlist]
    apply splitAlts_no_alt
    intro hmem
    simp only [List.mem_cons, List.mem_append, List.mem_singleton] at hmem
    rcases hmem with h | h | h
    · exact absurd h (by decide)
    · exact halt h
    · exact absurd h (by decide)
  rw [reMatch, hsplit]
  simp only [List.any_cons, List.any_nil, Bool.or_false]
  rw [seqEnds_caret, if_pos rfl, notIsEmpty_iff]
  constructor
  · rintro ⟨j, hj⟩
    exact ⟨j, (seqEnds_append_dollar mid.toList.length mid.toList s.toList 0 j
      (le_refl _)).mp hj⟩
  · rintro ⟨j, hj1, hj2⟩
    exact ⟨j, (seqEnds_append_dollar mid.toList.length mid.toList s.toList 0 j
      (le_refl _)).mpr ⟨hj1, hj2⟩⟩

/-- One step of the literal scan. -/
theorem litMatchAt_cons (c : Char) (rest s : List Char) (i : Nat) :
    litMatchAt (c :: rest) s i =
      (decide (s[i]? = some c) && litMatchAt rest s (i + 1)) := rfl

/-- The separate non-`'.'` facts packed in `plainChar`. -/
theorem plainChar_props (c : Char) (hc : plainChar c = true) :
    c ≠ '^' ∧ c ≠ '$' ∧ c ≠ '*' ∧ c ≠ '.' ∧ c ≠ '|' := by
  simp only [plainChar, decide_eq_true_eq, not_or] at hc
  exact ⟨hc.1, hc.2.1, hc.2.2.1, hc.2.2.2.1, hc.2.2.2.2.1⟩

/-- A plain atom matches exactly its own character. -/
theorem atomM_plain (c : Char) (hcdot : c ≠ '.') (s : List Char) (i : Nat) :
    atomM c s i = decide (s[i]? = some c) := by
  unfold atomM
  by_cases hi : i < s.length
  · rw [dif_pos hi]
    simp only [hcdot, if_false]
    rw [List.getElem?_eq_getElem hi]
    simp [eq_comm]
  · rw [dif_neg hi]
    rw [List.getElem?_eq_none (Nat.le_of_not_lt hi)]
    simp

/-- Scanning an all-plain (literal) pattern is plain string
comparison, consuming exactly the pattern's length. -/
theorem seqEnds_lit :
    ∀ (cs : List Char), cs.all plainChar = true →
    ∀ (s : List Char) (i : Nat),
      seqEnds cs s i = (if litMatchAt cs s i then [i + cs.length] else []) := by
  intro cs
  induction cs with
  | nil =>
    intro _ s i
    rw [seqEnds_nil]
    simp [litMatchAt]
  | cons c rest ih =>
    intro hall s i
    rw [List.all_cons, Bool.and_eq_true] at hall
    obtain ⟨hc1, hc2, hcst, hcdot, _⟩ := plainChar_props c hall.1
    cases rest with
    | nil =>
      rw [seqEnds_one c s i hc1 hc2, atomM_plain c hcdot]
      by_cases hm : s[i]? = some c <;> simp [litMatchAt, hm]
    | cons c2 rest2 =>
      have hplain2 : plainChar c2 = true := by
        rw [List.all_cons, Bool.and_eq_true] at hall
        exact hall.2.1
      rw [seqEnds_atom c c2 rest2 s i hc1 hc2 (plainChar_props c2 hplain2).2.2.1,
        atomM_plain c hcdot, ih hall.2 s (i + 1)]
      by_cases hm : s[i]? = some c
      · rw [if_pos (by simpa using hm)]
        by_cases hl : litMatchAt (c2 :: rest2) s (i + 1) = true
        · rw [if_pos hl, if_pos (by rw [litMatchAt_cons]; simp [hm, hl])]
          simp only [List.length_cons, List.cons.injEq, and_true]
          omega
        · rw [if_neg hl, if_neg (by rw [litMatchAt_cons]; simp [hm, hl])]
      · rw [if_neg (by simpa using hm),
          if_neg (by rw [litMatchAt_cons]; simp [hm])]

/-- A literal scan succeeds exactly when the text reproduces the
pattern character by character from the start position. -/
theorem litMatchAt_iff :
    ∀ (cs s : List Char) (i : Nat),
      litMatchAt cs s i = true ↔ ∀ k, k < cs.length → s[i + k]? = cs[k]? := by
  intro cs
  induction cs with
  | nil => intro s i; simp [litMatchAt]
  | cons c rest ih =>
    intro s i
    simp only [litMatchAt, Bool.and_eq_true, decide_eq_true_eq]
    constructor
    · rintro ⟨h1, h2⟩ k hk
      cases k with
      | zero => simpa using h1
      | succ k2 =>
        have hr := (ih s (i + 1)).mp h2 k2 (by simpa using hk)
        rw [show i + (k2 + 1) = (i + 1) + k2 by omega]
        simpa using hr
    · intro h
      refine ⟨by simpa using h 0 (by simp), (ih s (i + 1)).mpr ?_⟩
      intro k hk
      have := h (k + 1) (by simpa using Nat.succ_lt_succ hk)
      rw [show (i + 1) + k = i + (k + 1) by omega]
      simpa using this

/-- The anchored outcome of a literal scan at position 0: the candidate
is the pattern itself, or the pattern plus one trailing newline. -/
theorem lit_end_cases (cs s : List Char) :
    (litMatchAt cs s 0 = true ∧ atEndOrNl s cs.length = true) ↔
      (s = cs ∨ s = cs ++ ['\n']) := by
  constructor
  · rintro ⟨hlit, hend⟩
    have hk := (litMatchAt_iff cs s 0).mp hlit
    simp only [atEndOrNl, Bool.or_eq_true, decide_eq_true_eq,
      Bool.and_eq_true] at hend
    rcases hend with hlen | ⟨hlen, hnl⟩
    · left
      apply List.ext_getElem?
      intro n
      by_cases hn : n < cs.length
      · have := hk n hn
        rw [show (0 : Nat) + n = n by omega] at this
        exact this
      · rw [List.getElem?_eq_none (by omega), List.getElem?_eq_none (by omega)]
    · right
      apply List.ext_getElem?
      intro n
      rcases Nat.lt_trichotomy n cs.length with hn | hn | hn
      · have := hk n hn
        rw [show (0 : Nat) + n = n by omega] at this
        rw [this, List.getElem?_append_left hn]
      · subst hn
        rw [hnl, List.getElem?_append_right (le_refl _)]
        simp
      · rw [List.getElem?_eq_none (by omega), List.getElem?_eq_none (by simp; omega)]
  · intro hcase
    rcases hcase with h | h
    · rw [h]
      constructor
      · exact (litMatchAt_iff cs cs 0).mpr (fun k _ => by simp)
      · simp [atEndOrNl]
    · rw [h]
      constructor
      · refine (litMatchAt_iff cs (cs ++ ['\n']) 0).mpr (fun k hk => ?_)
        rw [show (0 : Nat) + k = k by omega, List.getElem?_append_left hk]
      · have hlen2 : (cs ++ ['\n']).length = cs.length + 1 := by simp
        simp only [atEndOrNl, Bool.or_eq_true, decide_eq_true_eq, Bool.and_eq_true]
        refine Or.inr ⟨?_, ?_⟩
        · rw [hlen2]
        · rw [List.getElem?_append_right (le_refl _)]
          simp

/-- One resolution step of `statFollow`. -/
theorem statFollow_succ (fs : FS) (fuel : Nat) (p : String) :
    statFollow fs (fuel + 1) p =
      (match lookupTab fs p with
       | none => none
       | some e =>
         match e.ftype with
         | FType.symlink t => statFollow fs fuel t
         | _ => some e) := rfl

/-- Slash stripping leaves the characters of a path with no trailing
slash alone. -/
theorem stripCore_keep (p : String) (h : p.toList.getLast? ≠ some '/') :
    stripCore p = p.toList := by
  unfold stripCore
  cases hrev : p.toList.reverse with
  | nil =>
    have hnil : p.toList = [] := by
      have h2 := congrArg List.reverse hrev
      simpa using h2
    simp only [List.dropWhile_nil, List.reverse_nil]
    exact hnil.symm
  | cons c rest =>
    have hp : p.toList = rest.reverse ++ [c] := by
      have h2 := congrArg List.reverse hrev
      simpa using h2
    have hc : c ≠ '/' := by
      intro hceq
      apply h
      rw [hp, hceq]
      simp
    rw [List.dropWhile_cons]
    simp only [hc, decide_False, Bool.false_eq_true, if_false]
    rw [hp]
    simp

/-- Appending one slash does not change the stripped characters. -/
theorem stripCore_append_slash (p : String) :
    stripCore (p ++ "/") = stripCore p := by
  unfold stripCore
  rw [str_toList_append]
  have h1 : ("/" : String).toList = ['/'] := rfl
  rw [h1, List.reverse_append]
  simp [List.dropWhile_cons]

/-- A path not ending in a slash is untouched by slash stripping. -/
theorem stripSlashes_keep (p : String) (h : p.toList.getLast? ≠ some '/') :
    stripSlashes p = p := by
  unfold stripSlashes
  rw [stripCore_keep p h]
  have hcond : (p.toList.isEmpty && !p.toList.isEmpty) = false := by
    cases p.toList.isEmpty <;> rfl
  rw [hcond]
  simp only [Bool.false_eq_true, if_false]
  exact strExt _ _ (by simp)

/-- Appending one slash to a nonempty path does not change its
stripped form. -/
theorem stripSlashes_append_slash (p : String) (hp : p ≠ "") :
    stripSlashes (p ++ "/") = stripSlashes p := by
  unfold stripSlashes
  rw [stripCore_append_slash]
  have h1 : (p ++ "/").toList.isEmpty = false := by
    rw [str_toList_append]
    cases hpt : p.toList <;> simp
  have h2 : p.toList.isEmpty = false := by
    cases hpt : p.toList with
    | nil => exact absurd (strExt p "" (by rw [hpt]; rfl)) hp
    | cons a l => rfl
  rw [h1, h2]

/-! ### Filesystem-level pass lemmas (claim C3) -/

/-- Cons equation of `lookupTab`. -/
theorem lookupTab_cons {α : Type} (k0 : String) (v : α)
    (rest : List (String × α)) (p : String) :
    lookupTab ((k0, v) :: rest) p =
      (if k0 = p then some v else lookupTab rest p) := rfl

/-- Cons equation of `updateTab`. -/
theorem updateTab_cons (k0 : String) (e0 : FSEntry) (rest : FS) (q : String)
    (f : FSEntry → FSEntry) :
    updateTab ((k0, e0) :: rest) q f =
      (if k0 = q then (k0, f e0) else (k0, e0)) :: updateTab rest q f := rfl

/-- Lookup after a keyed update. -/
theorem lookupTab_updateTab :
    ∀ (fs : FS) (q : String) (f : FSEntry → FSEntry) (p : String),
      lookupTab (updateTab fs q f) p =
        (if p = q then (lookupTab fs p).map f else lookupTab fs p) := by
  intro fs q f
  induction fs with
  | nil =>
    intro p
    by_cases h : p = q <;> simp [updateTab, lookupTab, h]
  | cons kv rest ih =>
    intro p
    obtain ⟨k0, e0⟩ := kv
    by_cases h1 : k0 = q
    · by_cases h2 : k0 = p
      · subst h1; subst h2
        rw [updateTab_cons, if_pos rfl]
        simp [lookupTab_cons]
      · subst h1
        have h3 : ¬ p = k0 := fun hc => h2 hc.symm
        rw [updateTab_cons, if_pos rfl]
        simp [lookupTab_cons, h2, h3, ih p]
    · by_cases h2 : k0 = p
      · subst h2
        rw [updateTab_cons, if_neg h1]
        simp [lookupTab_cons, h1]
      · rw [updateTab_cons, if_neg h1]
        simp [lookupTab_cons, h1, h2, ih p]

/-- Every entry a symlink-free table yields is not a symlink. -/
theorem noSymlinks_lookup :
    ∀ (fs : FS) (q : String) (e : FSEntry),
      noSymlinks fs = true → lookupTab fs q = some e → isLinkB e = false := by
  intro fs
  induction fs with
  | nil => intro q e _ hl; simp [lookupTab] at hl
  | cons kv rest ih =>
    intro q e hns hl
    obtain ⟨k0, e0⟩ := kv
    rw [noSymlinks, List.all_cons, Bool.and_eq_true] at hns
    by_cases h1 : k0 = q
    · simp only [lookupTab, h1, if_pos rfl] at hl
      cases hl
      simpa using hns.1
    · simp only [lookupTab, h1, if_neg, if_false] at hl
      exact ih q e hns.2 hl

/-- A type-preserving update keeps a table symlink-free. -/
theorem noSymlinks_updateTab :
    ∀ (fs : FS) (q : String) (f : FSEntry → FSEntry),
      (∀ e, (f e).ftype = e.ftype) →
      noSymlinks fs = true → noSymlinks (updateTab fs q f) = true := by
  intro fs q f hf
  induction fs with
  | nil => intro _; rfl
  | cons kv rest ih =>
    intro hns
    obtain ⟨k0, e0⟩ := kv
    rw [noSymlinks, List.all_cons, Bool.and_eq_true] at hns
    rw [updateTab, noSymlinks, List.all_cons, Bool.and_eq_true]
    refine ⟨?_, ih hns.2⟩
    by_cases h1 : k0 = q
    · rw [if_pos h1]
      have : isLinkB (f e0) = isLinkB e0 := by
        unfold isLinkB
        rw [hf e0]
      simpa [this] using hns.1
    · rw [if_neg h1]
      exact hns.1

/-- `stat`-resolution of a non-symlink entry is the entry itself. -/
theorem statFollow_nolink (fs : FS) (fuel : Nat) (q : String) (e : FSEntry)
    (hl : lookupTab fs q = some e) (hnl : isLinkB e = false) :
    statFollow fs (fuel + 1) q = some e := by
  rw [statFollow_succ, hl]
  cases hft : e.ftype
  · simp [hft]
  · simp [hft]
  · simp [isLinkB, hft] at hnl

/-- `stat`-resolution of a missing key fails. -/
theorem statFollow_none_of (fs : FS) (fuel : Nat) (q : String)
    (hl : lookupTab fs q = none) : statFollow fs (fuel + 1) q = none := by
  rw [statFollow_succ, hl]

/-- Key resolution of a non-symlink entry is the key itself. -/
theorem resolveKey_nolink (fs : FS) (fuel : Nat) (q : String) (e : FSEntry)
    (hl : lookupTab fs q = some e) (hnl : isLinkB e = false) :
    resolveKey fs (fuel + 1) q = some q := by
  rw [resolveKey, hl]
  cases hft : e.ftype
  · simp [hft]
  · simp [hft]
  · simp [isLinkB, hft] at hnl

/-- Key resolution of a missing key fails. -/
theorem resolveKey_none_of (fs : FS) (fuel : Nat) (q : String)
    (hl : lookupTab fs q = none) : resolveKey fs (fuel + 1) q = none := by
  rw [resolveKey, hl]

/-- `stripSlashes` fixes the root path. -/
theorem stripSlashes_root : stripSlashes "/" = "/" := by decide

/-- On a symlink-free filesystem, `lstat` is a plain lookup at the
slash-stripped key. -/
theorem lstatF_nolinks (fs : FS) (k : String) (hns : noSymlinks fs = true) :
    lstatF fs k = lookupTab fs (stripSlashes k) := by
  unfold lstatF
  by_cases hc : (k.toList.getLast? = some '/' && k ≠ "/") = true
  · rw [if_pos hc]
    cases hl : lookupTab fs (stripSlashes k) with
    | none =>
      rw [show (40 : Nat) = 39 + 1 from rfl]
      exact statFollow_none_of fs 39 _ hl
    | some e =>
      rw [show (40 : Nat) = 39 + 1 from rfl]
      exact statFollow_nolink fs 39 _ e hl (noSymlinks_lookup fs _ e hns hl)
  · rw [if_neg hc]
    rw [Bool.and_eq_true] at hc
    push_neg at hc
    by_cases hlast : k.toList.getLast? = some '/'
    · have hk : k = "/" := by
        have := hc (decide_eq_true hlast)
        simpa using this
      rw [hk, stripSlashes_root]
    · rw [stripSlashes_keep k hlast]

/-- On a symlink-free filesystem, `isdir` of a present key answers from
the entry's own type. -/
theorem isdirF_nolinks (fs : FS) (k : String) (e : FSEntry)
    (hns : noSymlinks fs = true) (hl : lookupTab fs (stripSlashes k) = some e) :
    isdirF fs k = isDirB e := by
  unfold isdirF
  rw [show (40 : Nat) = 39 + 1 from rfl,
      statFollow_nolink fs 39 _ e hl (noSymlinks_lookup fs _ e hns hl)]
  cases hft : e.ftype <;> simp [isDirB, hft]

/-- `isdir` of an absent key is false. -/
theorem isdirF_none (fs : FS) (k : String)
    (hl : lookupTab fs (stripSlashes k) = none) : isdirF fs k = false := by
  unfold isdirF
  rw [show (40 : Nat) = 39 + 1 from rfl, statFollow_none_of fs 39 _ hl]

/-- On a symlink-free filesystem, `collect_path_data` of a present key
is the entry's own record. -/
theorem collect_eq (fs : FS) (k : String) (e : FSEntry)
    (hns : noSymlinks fs = true) (hl : lookupTab fs (stripSlashes k) = some e) :
    collect_path_data fs k = some (recordOf k e) := by
  unfold collect_path_data
  rw [lstatF_nolinks fs k hns, hl, isdirF_nolinks fs k e hns hl]
  rfl

/-- `collect_path_data` of an absent key fails. -/
theorem collect_none (fs : FS) (k : String)
    (hns : noSymlinks fs = true) (hl : lookupTab fs (stripSlashes k) = none) :
    collect_path_data fs k = none := by
  unfold collect_path_data
  rw [lstatF_nolinks fs k hns, hl]

/-- On a symlink-free filesystem, `chmod` of a present key is a keyed
permission update at the stripped key. -/
theorem chmodFS_eq (fs : FS) (p : String) (m : Int) (e : FSEntry)
    (hns : noSymlinks fs = true) (hl : lookupTab fs (stripSlashes p) = some e) :
    chmodFS fs p m =
      updateTab fs (stripSlashes p) (fun e0 => { e0 with mode := setPerm e0.mode m }) := by
  unfold chmodFS
  rw [show (40 : Nat) = 39 + 1 from rfl,
      resolveKey_nolink fs 39 _ e hl (noSymlinks_lookup fs _ e hns hl)]

/-- `chmod` of an absent key leaves the filesystem unchanged. -/
theorem chmodFS_none (fs : FS) (p : String) (m : Int)
    (hl : lookupTab fs (stripSlashes p) = none) : chmodFS fs p m = fs := by
  unfold chmodFS
  rw [show (40 : Nat) = 39 + 1 from rfl, resolveKey_none_of fs 39 _ hl]

/-- On a symlink-free filesystem, `chown` of a present key is a keyed
owner update at the stripped key. -/
theorem chownFS_eq (fs : FS) (p : String) (u g : Nat) (e : FSEntry)
    (hns : noSymlinks fs = true) (hl : lookupTab fs (stripSlashes p) = some e) :
    chownFS fs p u g =
      updateTab fs (stripSlashes p) (fun e0 => { e0 with uid := u, gid := g }) := by
  unfold chownFS
  rw [show (40 : Nat) = 39 + 1 from rfl,
      resolveKey_nolink fs 39 _ e hl (noSymlinks_lookup fs _ e hns hl)]

/-- `chown` of an absent key leaves the filesystem unchanged. -/
theorem chownFS_none (fs : FS) (p : String) (u g : Nat)
    (hl : lookupTab fs (stripSlashes p) = none) : chownFS fs p u g = fs := by
  unfold chownFS
  rw [show (40 : Nat) = 39 + 1 from rfl, resolveKey_none_of fs 39 _ hl]

/-- `chmod` keeps a filesystem symlink-free. -/
theorem noSymlinks_chmodFS (fs : FS) (p : String) (m : Int)
    (hns : noSymlinks fs = true) : noSymlinks (chmodFS fs p m) = true := by
  unfold chmodFS
  cases hr : resolveKey fs 40 (stripSlashes p) with
  | none => exact hns
  | some q => exact noSymlinks_updateTab fs q _ (fun _ => rfl) hns

/-- `chown` keeps a filesystem symlink-free. -/
theorem noSymlinks_chownFS (fs : FS) (p : String) (u g : Nat)
    (hns : noSymlinks fs = true) : noSymlinks (chownFS fs p u g) = true := by
  unfold chownFS
  cases hr : resolveKey fs 40 (stripSlashes p) with
  | none => exact hns
  | some q => exact noSymlinks_updateTab fs q _ (fun _ => rfl) hns

/-- `chmod` leaves every other key's entry alone. -/
theorem chmodFS_lookup_other (fs : FS) (p : String) (m : Int) (q : String)
    (hns : noSymlinks fs = true) (hq : q ≠ stripSlashes p) :
    lookupTab (chmodFS fs p m) q = lookupTab fs q := by
  cases hl : lookupTab fs (stripSlashes p) with
  | none => rw [chmodFS_none fs p m hl]
  | some e =>
    rw [chmodFS_eq fs p m e hns hl, lookupTab_updateTab, if_neg hq]

/-- `chown` leaves every other key's entry alone. -/
theorem chownFS_lookup_other (fs : FS) (p : String) (u g : Nat) (q : String)
    (hns : noSymlinks fs = true) (hq : q ≠ stripSlashes p) :
    lookupTab (chownFS fs p u g) q = lookupTab fs q := by
  cases hl : lookupTab fs (stripSlashes p) with
  | none => rw [chownFS_none fs p u g hl]
  | some e =>
    rw [chownFS_eq fs p u g e hns hl, lookupTab_updateTab, if_neg hq]

/-- `chmod` rewrites the permission bits of the entry at the stripped
key. -/
theorem chmodFS_lookup_self (fs : FS) (p : String) (m : Int) (e : FSEntry)
    (hns : noSymlinks fs = true) (hl : lookupTab fs (stripSlashes p) = some e) :
    lookupTab (chmodFS fs p m) (stripSlashes p) =
      some { e with mode := setPerm e.mode m } := by
  rw [chmodFS_eq fs p m e hns hl, lookupTab_updateTab, if_pos rfl, hl]
  rfl

/-- `chown` rewrites the owner ids of the entry at the stripped key. -/
theorem chownFS_lookup_self (fs : FS) (p : String) (u g : Nat) (e : FSEntry)
    (hns : noSymlinks fs = true) (hl : lookupTab fs (stripSlashes p) = some e) :
    lookupTab (chownFS fs p u g) (stripSlashes p) =
      some { e with uid := u, gid := g } := by
  rw [chownFS_eq fs p u g e hns hl, lookupTab_updateTab, if_pos rfl, hl]
  rfl

/-- Masking with 4095 is reduction mod 4096. -/
theorem land_mod_4096 (x : Nat) : Nat.land x 4095 = x % 4096 := by
  show x &&& 4095 = x % 4096
  rw [(by norm_num : (4095 : Nat) = 2 ^ 12 - 1),
    (by norm_num : (4096 : Nat) = 2 ^ 12), Nat.and_pow_two_sub_one_eq_mod]

/-- Re-masking a `chmod`-written permission value recovers the value,
as long as it lay in the masked 0–0o7777 range. -/
theorem land_setPerm (mode : Nat) (v : Int) (h0 : 0 ≤ v) (h1 : v < 4096) :
    ((Nat.land (setPerm mode v) 4095 : Nat) : Int) = v := by
  rw [land_mod_4096]
  unfold setPerm
  omega

/-- The FS-level mode step keeps the invariant, leaves nothing more for
its own check to do, and touches no other record field. -/
theorem applyFSModeStep_good (m : Option Int) (ch dbg : Bool) (fs : FS)
    (k : String) (e : FSEntry) (pd : PathRecord)
    (hg : goodAt fs k e pd) (hm : modeOk m = true) :
    ∃ e1, goodAt (applyFSModeStep m true ch dbg fs pd).1 k e1
            (applyFSModeStep m true ch dbg fs pd).2.1
      ∧ e1.ftype = e.ftype
      ∧ optNe m (applyFSModeStep m true ch dbg fs pd).2.1.mode = false
      ∧ (applyFSModeStep m true ch dbg fs pd).2.1.uid = pd.uid
      ∧ (applyFSModeStep m true ch dbg fs pd).2.1.gid = pd.gid
      ∧ (applyFSModeStep m true ch dbg fs pd).2.1.isdir = pd.isdir
      ∧ (applyFSModeStep m true ch dbg fs pd).2.1.isfile = pd.isfile
      ∧ (∀ q, q ≠ stripSlashes k →
          lookupTab (applyFSModeStep m true ch dbg fs pd).1 q = lookupTab fs q) := by
  obtain ⟨hl, hns, hpath, hmode, huid, hgid⟩ := hg
  cases m with
  | none =>
    exact ⟨e, ⟨hl, hns, hpath, hmode, huid, hgid⟩, rfl, rfl, rfl, rfl, rfl, rfl,
      fun q _ => rfl⟩
  | some v =>
    by_cases hfire : pd.mode = v
    · have hstep : applyFSModeStep (some v) true ch dbg fs pd = (fs, pd, ch, []) := by
        simp [applyFSModeStep, hfire]
      rw [hstep]
      exact ⟨e, ⟨hl, hns, hpath, hmode, huid, hgid⟩, rfl,
        by simp [optNe, hfire], rfl, rfl, rfl, rfl, fun q _ => rfl⟩
    · have hstep : applyFSModeStep (some v) true ch dbg fs pd =
          (chmodFS fs pd.path v, { pd with mode := v }, true,
           addToChangedList dbg pd.path) := by
        simp [applyFSModeStep, hfire]
      rw [hstep]
      simp only [modeOk, Bool.and_eq_true, decide_eq_true_eq] at hm
      refine ⟨{ e with mode := setPerm e.mode v }, ⟨?_, ?_, hpath, ?_, huid, hgid⟩,
        rfl, by simp [optNe], rfl, rfl, rfl, rfl, ?_⟩
      · rw [hpath]
        exact chmodFS_lookup_self fs k v e hns hl
      · exact noSymlinks_chmodFS fs pd.path v hns
      · exact (land_setPerm e.mode v hm.1 hm.2).symm
      · intro q hq
        rw [hpath]
        exact chmodFS_lookup_other fs k v q hns hq

/-- The FS-level owner step keeps the invariant, leaves nothing more
for its own check to do, and touches no other record field. -/
theorem applyFSUidStep_good (u : Option Nat) (ch dbg : Bool) (fs : FS)
    (k : String) (e : FSEntry) (pd : PathRecord) (hg : goodAt fs k e pd) :
    ∃ e1, goodAt (applyFSUidStep u true ch dbg fs pd).1 k e1
            (applyFSUidStep u true ch dbg fs pd).2.1
      ∧ e1.ftype = e.ftype
      ∧ optNe u (applyFSUidStep u true ch dbg fs pd).2.1.uid = false
      ∧ (applyFSUidStep u true ch dbg fs pd).2.1.mode = pd.mode
      ∧ (applyFSUidStep u true ch dbg fs pd).2.1.gid = pd.gid
      ∧ (applyFSUidStep u true ch dbg fs pd).2.1.isdir = pd.isdir
      ∧ (applyFSUidStep u true ch dbg fs pd).2.1.isfile = pd.isfile
      ∧ (∀ q, q ≠ stripSlashes k →
          lookupTab (applyFSUidStep u true ch dbg fs pd).1 q = lookupTab fs q) := by
  obtain ⟨hl, hns, hpath, hmode, huid, hgid⟩ := hg
  cases u with
  | none =>
    exact ⟨e, ⟨hl, hns, hpath, hmode, huid, hgid⟩, rfl, rfl, rfl, rfl, rfl, rfl,
      fun q _ => rfl⟩
  | some v =>
    by_cases hfire : pd.uid = v
    · have hstep : applyFSUidStep (some v) true ch dbg fs pd = (fs, pd, ch, []) := by
        simp [applyFSUidStep, hfire]
      rw [hstep]
      exact ⟨e, ⟨hl, hns, hpath, hmode, huid, hgid⟩, rfl,
        by simp [optNe, hfire], rfl, rfl, rfl, rfl, fun q _ => rfl⟩
    · have hstep : applyFSUidStep (some v) true ch dbg fs pd =
          (chownFS fs pd.path v pd.gid, { pd with uid := v }, true,
           addToChangedList dbg pd.path) := by
        simp [applyFSUidStep, hfire]
      rw [hstep]
      refine ⟨{ e with uid := v, gid := pd.gid }, ⟨?_, ?_, hpath, hmode, rfl, rfl⟩,
        rfl, by simp [optNe], rfl, rfl, rfl, rfl, ?_⟩
      · rw [hpath]
        exact chownFS_lookup_self fs k v pd.gid e hns hl
      · exact noSymlinks_chownFS fs pd.path v pd.gid hns
      · intro q hq
        rw [hpath]
        exact chownFS_lookup_other fs k v pd.gid q hns hq

/-- The FS-level group step keeps the invariant, leaves nothing more
for its own check to do, and touches no other record field. -/
theorem applyFSGidStep_good (g : Option Nat) (ch dbg : Bool) (fs : FS)
    (k : String) (e : FSEntry) (pd : PathRecord) (hg : goodAt fs k e pd) :
    ∃ e1, goodAt (applyFSGidStep g true ch dbg fs pd).1 k e1
            (applyFSGidStep g true ch dbg fs pd).2.1
      ∧ e1.ftype = e.ftype
      ∧ optNe g (applyFSGidStep g true ch dbg fs pd).2.1.gid = false
      ∧ (applyFSGidStep g true ch dbg fs pd).2.1.mode = pd.mode
      ∧ (applyFSGidStep g true ch dbg fs pd).2.1.uid = pd.uid
      ∧ (applyFSGidStep g true ch dbg fs pd).2.1.isdir = pd.isdir
      ∧ (applyFSGidStep g true ch dbg fs pd).2.1.isfile = pd.isfile
      ∧ (∀ q, q ≠ stripSlashes k →
          lookupTab (applyFSGidStep g true ch dbg fs pd).1 q = lookupTab fs q) := by
  obtain ⟨hl, hns, hpath, hmode, huid, hgid⟩ := hg
  cases g with
  | none =>
    exact ⟨e, ⟨hl, hns, hpath, hmode, huid, hgid⟩, rfl, rfl, rfl, rfl, rfl, rfl,
      fun q _ => rfl⟩
  | some v =>
    by_cases hfire : pd.gid = v
    · have hstep : applyFSGidStep (some v) true ch dbg fs pd = (fs, pd, ch, []) := by
        simp [applyFSGidStep, hfire]
      rw [hstep]
      exact ⟨e, ⟨hl, hns, hpath, hmode, huid, hgid⟩, rfl,
        by simp [optNe, hfire], rfl, rfl, rfl, rfl, fun q _ => rfl⟩
    · have hstep : applyFSGidStep (some v) true ch dbg fs pd =
          (chownFS fs pd.path pd.uid v, { pd with gid := v }, true,
           addToChangedList dbg pd.path) := by
        simp [applyFSGidStep, hfire]
      rw [hstep]
      refine ⟨{ e with uid := pd.uid, gid := v }, ⟨?_, ?_, hpath, hmode, rfl, rfl⟩,
        rfl, by simp [optNe], rfl, rfl, rfl, rfl, ?_⟩
      · rw [hpath]
        exact chownFS_lookup_self fs k pd.uid v e hns hl
      · exact noSymlinks_chownFS fs pd.path pd.uid v hns
      · intro q hq
        rw [hpath]
        exact chownFS_lookup_other fs k pd.uid v q hns hq

/-- An applying FS-level chain keeps the invariant, leaves its own rule
with zero firing checks on the resulting record, preserves the type
flags and touches no other filesystem key. -/
theorem applyFSChain_good (m : Option Int) (u g : Option Nat) (ch dbg : Bool)
    (fs : FS) (k : String) (e : FSEntry) (pd : PathRecord)
    (hg : goodAt fs k e pd) (hm : modeOk m = true) :
    ∃ e3, goodAt (applyFSChain m u g true ch dbg fs pd).1 k e3
            (applyFSChain m u g true ch dbg fs pd).2.1
      ∧ e3.ftype = e.ftype
      ∧ chainCount m u g (applyFSChain m u g true ch dbg fs pd).2.1 = 0
      ∧ (applyFSChain m u g true ch dbg fs pd).2.1.isdir = pd.isdir
      ∧ (applyFSChain m u g true ch dbg fs pd).2.1.isfile = pd.isfile
      ∧ (∀ q, q ≠ stripSlashes k →
          lookupTab (applyFSChain m u g true ch dbg fs pd).1 q = lookupTab fs q) := by
  dsimp only [applyFSChain]
  obtain ⟨e1, hg1, hft1, hne1, hu1, hgid1, hd1, hf1, hfr1⟩ :=
    applyFSModeStep_good m ch dbg fs k e pd hg hm
  obtain ⟨e2, hg2, hft2, hne2, hm2, hgid2, hd2, hf2, hfr2⟩ :=
    applyFSUidStep_good u (applyFSModeStep m true ch dbg fs pd).2.2.1 dbg
      (applyFSModeStep m true ch dbg fs pd).1 k e1
      (applyFSModeStep m true ch dbg fs pd).2.1 hg1
  obtain ⟨e3, hg3, hft3, hne3, hm3, hu3, hd3, hf3, hfr3⟩ :=
    applyFSGidStep_good g
      (applyFSUidStep u true (applyFSModeStep m true ch dbg fs pd).2.2.1 dbg
        (applyFSModeStep m true ch dbg fs pd).1
        (applyFSModeStep m true ch dbg fs pd).2.1).2.2.1 dbg
      (applyFSUidStep u true (applyFSModeStep m true ch dbg fs pd).2.2.1 dbg
        (applyFSModeStep m true ch dbg fs pd).1
        (applyFSModeStep m true ch dbg fs pd).2.1).1 k e2
      (applyFSUidStep u true (applyFSModeStep m true ch dbg fs pd).2.2.1 dbg
        (applyFSModeStep m true ch dbg fs pd).1
        (applyFSModeStep m true ch dbg fs pd).2.1).2.1 hg2
  refine ⟨e3, hg3, ?_, ?_, ?_, ?_, ?_⟩
  · rw [hft3, hft2, hft1]
  · unfold chainCount
    rw [hm3, hm2, hne1, hu3, hne2, hne3]
    rfl
  · rw [hd3, hd2, hd1]
  · rw [hf3, hf2, hf1]
  · intro q hq
    rw [hfr3 q hq, hfr2 q hq, hfr1 q hq]

/-- A non-firing FS-level mode step does nothing. -/
theorem applyFSModeStep_nofire (t : Option Int) (cm ch dbg : Bool) (fs : FS)
    (pd : PathRecord) (h : optNe t pd.mode = false) :
    applyFSModeStep t cm ch dbg fs pd = (fs, pd, ch, []) := by
  cases t with
  | none => rfl
  | some v =>
    simp only [optNe, decide_eq_false_iff_not, Decidable.not_not] at h
    simp [applyFSModeStep, h]

/-- A non-firing FS-level owner step does nothing. -/
theorem applyFSUidStep_nofire (t : Option Nat) (cm ch dbg : Bool) (fs : FS)
    (pd : PathRecord) (h : optNe t pd.uid = false) :
    applyFSUidStep t cm ch dbg fs pd = (fs, pd, ch, []) := by
  cases t with
  | none => rfl
  | some v =>
    simp only [optNe, decide_eq_false_iff_not, Decidable.not_not] at h
    simp [applyFSUidStep, h]

/-- A non-firing FS-level group step does nothing. -/
theorem applyFSGidStep_nofire (t : Option Nat) (cm ch dbg : Bool) (fs : FS)
    (pd : PathRecord) (h : optNe t pd.gid = false) :
    applyFSGidStep t cm ch dbg fs pd = (fs, pd, ch, []) := by
  cases t with
  | none => rfl
  | some v =>
    simp only [optNe, decide_eq_false_iff_not, Decidable.not_not] at h
    simp [applyFSGidStep, h]

/-- An FS-level chain none of whose checks fire does nothing. -/
theorem applyFSChain_nofire (m : Option Int) (u g : Option Nat) (cm ch dbg : Bool)
    (fs : FS) (pd : PathRecord) (h : chainCount m u g pd = 0) :
    applyFSChain m u g cm ch dbg fs pd = (fs, pd, ch, []) := by
  unfold chainCount at h
  have hm : optNe m pd.mode = false := by
    cases h1 : optNe m pd.mode
    · rfl
    · rw [h1] at h; simp at h
  have hu : optNe u pd.uid = false := by
    cases h1 : optNe u pd.uid
    · rfl
    · rw [h1] at h; simp at h
  have hgd : optNe g pd.gid = false := by
    cases h1 : optNe g pd.gid
    · rfl
    · rw [h1] at h; simp at h
  dsimp only [applyFSChain]
  rw [applyFSModeStep_nofire _ _ _ _ _ _ hm]
  dsimp only
  rw [applyFSUidStep_nofire _ _ _ _ _ _ hu]
  dsimp only
  rw [applyFSGidStep_nofire _ _ _ _ _ _ hgd]
  rfl

/-- An FS-level `apply` whose governing rule has no firing checks does
nothing. -/
theorem applyFS_nofire (pr : PermissionRegex) (fs : FS) (pd : PathRecord)
    (cm ch dbg : Bool) (h : fireCount pr pd = 0) :
    pr.applyFS fs pd cm ch dbg = (fs, pd, ch, []) := by
  unfold PermissionRegex.applyFS
  unfold fireCount at h
  by_cases hf : pd.isfile = true
  · rw [hf] at h
    rw [hf]
    simp only [if_true]
    exact applyFSChain_nofire _ _ _ _ _ _ _ _ (by simpa using h)
  · have hf' : pd.isfile = false := by simpa using hf
    rw [hf'] at h
    rw [hf']
    simp only [Bool.false_eq_true, if_false]
    by_cases hd : pd.isdir = true
    · rw [hd] at h
      rw [hd]
      simp only [if_true]
      exact applyFSChain_nofire _ _ _ _ _ _ _ _ (by simpa using h)
    · have hd' : pd.isdir = false := by simpa using hd
      rw [hd']
      simp

/-- If the reversed scan finds a first matching rule, the FS-level
inner loop applies exactly that rule. -/
theorem scanApplyFS_find_some :
    ∀ (rules : List PermissionRegex) (fs : FS) (pd : PathRecord) (cm ch dbg : Bool)
      (pr : PermissionRegex),
      rules.find? (fun q => q.check_path pd) = some pr →
      scanApplyFS rules fs pd cm ch dbg =
        ((pr.applyFS fs pd cm ch dbg).1, (pr.applyFS fs pd cm ch dbg).2.2.1,
         (pr.applyFS fs pd cm ch dbg).2.2.2) := by
  intro rules
  induction rules with
  | nil => intro fs pd cm ch dbg pr h; simp [List.find?] at h
  | cons r rest ih =>
    intro fs pd cm ch dbg pr h
    by_cases hc : r.check_path pd = true
    · simp only [List.find?, hc] at h
      cases h
      simp [scanApplyFS, hc]
    · have hc' : r.check_path pd = false := by simpa using hc
      simp only [List.find?, hc'] at h
      simp only [scanApplyFS, hc', if_false]
      exact ih fs pd cm ch dbg pr h

/-- If no rule's check is true, the FS-level inner loop leaves the
filesystem, flag and log alone. -/
theorem scanApplyFS_find_none :
    ∀ (rules : List PermissionRegex) (fs : FS) (pd : PathRecord) (cm ch dbg : Bool),
      rules.find? (fun q => q.check_path pd) = none →
      scanApplyFS rules fs pd cm ch dbg = (fs, ch, []) := by
  intro rules
  induction rules with
  | nil => intro fs pd cm ch dbg _; rfl
  | cons r rest ih =>
    intro fs pd cm ch dbg h
    by_cases hc : r.check_path pd = true
    · simp only [List.find?, hc] at h
      exact Option.noConfusion h
    · have hc' : r.check_path pd = false := by simpa using hc
      simp only [List.find?, hc'] at h
      simp only [scanApplyFS, hc', if_false]
      exact ih fs pd cm ch dbg h

/-- `find?` only depends on the predicate's values. -/
theorem find_congr {α : Type} (p1 p2 : α → Bool) (h : ∀ a, p1 a = p2 a) :
    ∀ (l : List α), l.find? p1 = l.find? p2 := by
  intro l
  induction l with
  | nil => rfl
  | cons a rest ih =>
    simp only [List.find?, h a, ih]

/-- Entries with the same type agree on `isDirB`. -/
theorem isDirB_congr (e1 e2 : FSEntry) (h : e1.ftype = e2.ftype) :
    isDirB e1 = isDirB e2 := by
  unfold isDirB
  rw [h]

/-- One FS-level `apply` of the governing rule on a symlink-free tree:
the entry stays present with its type, the tree stays symlink-free,
other keys are untouched, and re-collecting the entry afterwards leaves
the rule zero firing checks. -/
theorem applyFS_good (pr : PermissionRegex) (ch dbg : Bool) (fs : FS)
    (k : String) (e : FSEntry) (hns : noSymlinks fs = true)
    (hl : lookupTab fs (stripSlashes k) = some e) (hr : rangeOk pr = true) :
    ∃ e3, lookupTab (pr.applyFS fs (recordOf k e) true ch dbg).1 (stripSlashes k) = some e3
      ∧ noSymlinks (pr.applyFS fs (recordOf k e) true ch dbg).1 = true
      ∧ e3.ftype = e.ftype
      ∧ fireCount pr (recordOf k e3) = 0
      ∧ (∀ q, q ≠ stripSlashes k →
          lookupTab (pr.applyFS fs (recordOf k e) true ch dbg).1 q = lookupTab fs q) := by
  have hg0 : goodAt fs k e (recordOf k e) := ⟨hl, hns, rfl, rfl, rfl, rfl⟩
  rw [rangeOk, Bool.and_eq_true] at hr
  unfold PermissionRegex.applyFS
  by_cases hd : isDirB e = true
  · have hif : (recordOf k e).isfile = false := by simp [recordOf, hd]
    have hid : (recordOf k e).isdir = true := by simp [recordOf, hd]
    rw [hif]
    simp only [Bool.false_eq_true, if_false]
    rw [hid]
    simp only [if_true]
    obtain ⟨e3, hg3, hft3, hcc3, hd3, hf3, hfr3⟩ :=
      applyFSChain_good pr.dir_mode pr.dir_uid pr.dir_gid ch dbg fs k e
        (recordOf k e) hg0 hr.2
    obtain ⟨hl3, hns3, hpath3, hmode3, huid3, hgid3⟩ := hg3
    refine ⟨e3, hl3, hns3, hft3, ?_, hfr3⟩
    have hrec : recordOf k e3 =
        (applyFSChain pr.dir_mode pr.dir_uid pr.dir_gid true ch dbg fs
          (recordOf k e)).2.1 := by
      apply pathRecordExt
      · exact hpath3.symm
      · exact hmode3.symm
      · exact huid3.symm
      · exact hgid3.symm
      · rw [hd3]
        exact isDirB_congr e3 e hft3
      · rw [hf3]
        simp [recordOf, isDirB_congr e3 e hft3]
    rw [hrec]
    unfold fireCount
    rw [hf3, hif]
    simp only [Bool.false_eq_true, if_false]
    rw [hd3, hid]
    simp only [if_true]
    exact hcc3
  · have hd' : isDirB e = false := by simpa using hd
    have hif : (recordOf k e).isfile = true := by simp [recordOf, hd']
    rw [hif]
    simp only [if_true]
    obtain ⟨e3, hg3, hft3, hcc3, hd3, hf3, hfr3⟩ :=
      applyFSChain_good pr.file_mode pr.file_uid pr.file_gid ch dbg fs k e
        (recordOf k e) hg0 hr.1
    obtain ⟨hl3, hns3, hpath3, hmode3, huid3, hgid3⟩ := hg3
    refine ⟨e3, hl3, hns3, hft3, ?_, hfr3⟩
    have hrec : recordOf k e3 =
        (applyFSChain pr.file_mode pr.file_uid pr.file_gid true ch dbg fs
          (recordOf k e)).2.1 := by
      apply pathRecordExt
      · exact hpath3.symm
      · exact hmode3.symm
      · exact huid3.symm
      · exact hgid3.symm
      · rw [hd3]
        exact isDirB_congr e3 e hft3
      · rw [hf3]
        simp [recordOf, isDirB_congr e3 e hft3]
    rw [hrec]
    unfold fireCount
    rw [hf3, hif]
    simp only [if_true]
    exact hcc3

/-- `fsStep` reduction when the collect succeeds. -/
theorem fsStep_collect_some (rules : List PermissionRegex) (cm ch dbg : Bool)
    (fs : FS) (k : String) (pd : PathRecord)
    (h : collect_path_data fs k = some pd) :
    fsStep rules cm ch dbg fs k = scanApplyFS rules fs pd cm ch dbg := by
  unfold fsStep
  rw [h]

/-- `fsStep` reduction when the collect fails. -/
theorem fsStep_collect_none (rules : List PermissionRegex) (cm ch dbg : Bool)
    (fs : FS) (k : String) (h : collect_path_data fs k = none) :
    fsStep rules cm ch dbg fs k = (fs, ch, []) := by
  unfold fsStep
  rw [h]

/-- A walk step on an already-reconciled key does nothing at all. -/
theorem fsStep_done (rules : List PermissionRegex) (cm ch dbg : Bool) (fs : FS)
    (k : String) (hns : noSymlinks fs = true) (hd : keyDone rules k fs) :
    fsStep rules cm ch dbg fs k = (fs, ch, []) := by
  unfold keyDone at hd
  cases hl : lookupTab fs (stripSlashes k) with
  | none => exact fsStep_collect_none rules cm ch dbg fs k (collect_none fs k hns hl)
  | some e =>
    rw [hl] at hd
    have hd' : entryCount rules (recordOf k e) = 0 := hd
    unfold entryCount at hd'
    rw [fsStep_collect_some rules cm ch dbg fs k (recordOf k e) (collect_eq fs k e hns hl)]
    cases hf : rules.find? (fun pr => pr.check_path (recordOf k e)) with
    | none => exact scanApplyFS_find_none rules fs (recordOf k e) cm ch dbg hf
    | some pr =>
      rw [hf] at hd'
      have hfc : fireCount pr (recordOf k e) = 0 := hd'
      rw [scanApplyFS_find_some rules fs (recordOf k e) cm ch dbg pr hf,
        applyFS_nofire pr fs (recordOf k e) cm ch dbg hfc]

/-- An applying walk step on a symlink-free tree, under rules whose
mode targets are in range: the tree stays symlink-free, other keys are
untouched, and the visited key is reconciled. -/
theorem fsStep_main (rules : List PermissionRegex) (ch dbg : Bool) (fs : FS)
    (k : String) (hns : noSymlinks fs = true)
    (hrange : ∀ pr ∈ rules, rangeOk pr = true) :
    noSymlinks (fsStep rules true ch dbg fs k).1 = true
    ∧ (∀ q, q ≠ stripSlashes k →
        lookupTab (fsStep rules true ch dbg fs k).1 q = lookupTab fs q)
    ∧ keyDone rules k (fsStep rules true ch dbg fs k).1 := by
  cases hl : lookupTab fs (stripSlashes k) with
  | none =>
    rw [fsStep_collect_none rules true ch dbg fs k (collect_none fs k hns hl)]
    refine ⟨hns, fun q _ => rfl, ?_⟩
    unfold keyDone
    rw [hl]
    trivial
  | some e =>
    rw [fsStep_collect_some rules true ch dbg fs k (recordOf k e) (collect_eq fs k e hns hl)]
    cases hf : rules.find? (fun pr => pr.check_path (recordOf k e)) with
    | none =>
      rw [scanApplyFS_find_none rules fs (recordOf k e) true ch dbg hf]
      refine ⟨hns, fun q _ => rfl, ?_⟩
      unfold keyDone
      rw [hl]
      show entryCount rules (recordOf k e) = 0
      unfold entryCount
      rw [hf]
    | some pr =>
      have hpr : pr ∈ rules := List.mem_of_find?_eq_some hf
      obtain ⟨e3, hl3, hns3, hft3, hfc3, hfr3⟩ :=
        applyFS_good pr ch dbg fs k e hns hl (hrange pr hpr)
      have h1 : (scanApplyFS rules fs (recordOf k e) true ch dbg).1 =
          (pr.applyFS fs (recordOf k e) true ch dbg).1 := by
        rw [scanApplyFS_find_some rules fs (recordOf k e) true ch dbg pr hf]
      rw [h1]
      refine ⟨hns3, hfr3, ?_⟩
      unfold keyDone
      rw [hl3]
      show entryCount rules (recordOf k e3) = 0
      unfold entryCount
      have hcong : ∀ pr2 : PermissionRegex,
          pr2.check_path (recordOf k e3) = pr2.check_path (recordOf k e) := by
        intro pr2
        apply check_path_congr
        · rfl
        · simp [recordOf, isDirB_congr e3 e hft3]
        · simp [recordOf, isDirB_congr e3 e hft3]
      rw [find_congr _ _ hcong rules, hf]
      exact hfc3

/-- `keyDone` only depends on the entry at the stripped key. -/
theorem keyDone_congr (rules : List PermissionRegex) (k : String) (fs fs' : FS)
    (h : lookupTab fs' (stripSlashes k) = lookupTab fs (stripSlashes k))
    (hd : keyDone rules k fs) : keyDone rules k fs' := by
  unfold keyDone at hd ⊢
  rw [h]
  exact hd

/-- Cons equation of the walk loop. -/
theorem runPassFS_cons (rules : List PermissionRegex) (dbg cm : Bool)
    (k0 : String) (rest : List String) (fs : FS) (ch : Bool) :
    runPassFS rules dbg cm (k0 :: rest) fs ch =
      ((runPassFS rules dbg cm rest (fsStep rules cm ch dbg fs k0).1
          (fsStep rules cm ch dbg fs k0).2.1).1,
       (runPassFS rules dbg cm rest (fsStep rules cm ch dbg fs k0).1
          (fsStep rules cm ch dbg fs k0).2.1).2.1,
       (fsStep rules cm ch dbg fs k0).2.2 ++
         (runPassFS rules dbg cm rest (fsStep rules cm ch dbg fs k0).1
            (fsStep rules cm ch dbg fs k0).2.1).2.2) := rfl

/-- After one applying pass over distinct keys of a symlink-free tree
(rule modes in range): the tree is still symlink-free, keys outside the
walk are untouched, and every walked key is reconciled. -/
theorem runPassFS_main (rules : List PermissionRegex) (dbg : Bool)
    (hrange : ∀ pr ∈ rules, rangeOk pr = true) :
    ∀ (keys : List String) (fs : FS) (ch : Bool),
      noSymlinks fs = true →
      (keys.map stripSlashes).Nodup →
      noSymlinks (runPassFS rules dbg true keys fs ch).1 = true
      ∧ (∀ q, q ∉ keys.map stripSlashes →
          lookupTab (runPassFS rules dbg true keys fs ch).1 q = lookupTab fs q)
      ∧ (∀ k ∈ keys, keyDone rules k (runPassFS rules dbg true keys fs ch).1) := by
  intro keys
  induction keys with
  | nil =>
    intro fs ch hns _
    exact ⟨hns, fun q _ => rfl, fun k hk => absurd hk (List.not_mem_nil k)⟩
  | cons k0 rest ih =>
    intro fs ch hns hnd
    rw [List.map_cons, List.nodup_cons] at hnd
    obtain ⟨hs0, hfr0, hd0⟩ := fsStep_main rules ch dbg fs k0 hns hrange
    rw [runPassFS_cons]
    dsimp only
    obtain ⟨ih1, ih2, ih3⟩ := ih (fsStep rules true ch dbg fs k0).1
      (fsStep rules true ch dbg fs k0).2.1 hs0 hnd.2
    refine ⟨ih1, ?_, ?_⟩
    · intro q hq
      rw [List.map_cons] at hq
      have hq1 : q ≠ stripSlashes k0 := by
        intro he
        exact hq (by rw [he]; exact List.mem_cons_self _ _)
      have hq2 : q ∉ rest.map stripSlashes := fun hm => hq (List.mem_cons_of_mem _ hm)
      rw [ih2 q hq2, hfr0 q hq1]
    · intro k hk
      rcases List.mem_cons.mp hk with hk0 | hkr
      · subst hk0
        exact keyDone_congr rules k (fsStep rules true ch dbg fs k).1 _
          (ih2 (stripSlashes k) hnd.1) hd0
      · exact ih3 k hkr

/-- A pass over keys that are all already reconciled does nothing:
same tree, unchanged flag, empty log. -/
theorem runPassFS_done (rules : List PermissionRegex) (dbg : Bool) :
    ∀ (keys : List String) (fs : FS) (ch : Bool),
      noSymlinks fs = true →
      (∀ k ∈ keys, keyDone rules k fs) →
      runPassFS rules dbg true keys fs ch = (fs, ch, []) := by
  intro keys
  induction keys with
  | nil => intro fs ch _ _; rfl
  | cons k0 rest ih =>
    intro fs ch hns hall
    have h0 : fsStep rules true ch dbg fs k0 = (fs, ch, []) :=
      fsStep_done rules true ch dbg fs k0 hns (hall k0 (List.mem_cons_self k0 rest))
    have h2 : runPassFS rules dbg true rest fs ch = (fs, ch, []) :=
      ih fs ch hns (fun k hk => hall k (List.mem_cons_of_mem k0 hk))
    rw [runPassFS_cons, h0]
    dsimp only
    rw [h2]
    rfl

/-! ## Claims -/

/-- C1: the rule list `main` scans is the reverse of declaration order;
for each walked entry the first rule (in that scan order) whose
`check_path` returns true governs the entry and the scan stops there;
an entry matched by no rule is left completely unmodified (same record,
same `changed` flag, nothing logged). -/
theorem claim_C1 :
    (∀ (users groups : List (String × Nat)) (root : String) (decls : List RuleDecl),
       buildRegexp users groups root decls =
         Except.map List.reverse (compileRules users groups root decls))
    ∧ (∀ (rules : List PermissionRegex) (pd : PathRecord) (cm ch dbg : Bool)
         (pr : PermissionRegex),
         rules.find? (fun q => q.check_path pd) = some pr →
         scanApply rules pd cm ch dbg = pr.apply pd cm ch dbg)
    ∧ (∀ (rules : List PermissionRegex) (pd : PathRecord) (cm ch dbg : Bool),
         rules.find? (fun q => q.check_path pd) = none →
         scanApply rules pd cm ch dbg = (pd, ch, [])) := by
  refine ⟨?_, scanApply_find_some, scanApply_find_none⟩
  intro users groups root decls
  rw [buildRegexp, buildRegexp_fold]
  cases compileRules users groups root decls with
  | error e => rfl
  | ok l => simp [Except.map]

/-- Witness for C1: with the scan list `[prNoFiles, prMatchAll]` (the
declaration order was `[prMatchAll, prNoFiles]`), the file record is
governed by `prMatchAll` because `prNoFiles` does not check files; a
scan list containing only `prNoFiles` touches nothing. -/
theorem claim_C1_witness :
    scanApply [prNoFiles, prMatchAll] pdFileX true false false =
      prMatchAll.apply pdFileX true false false
    ∧ scanApply [prNoFiles] pdFileX true false false = (pdFileX, false, []) :=
  ⟨claim_C1.2.1 [prNoFiles, prMatchAll] pdFileX true false false prMatchAll (by decide),
   claim_C1.2.2 [prNoFiles] pdFileX true false false (by decide)⟩

/-- C4: the identity-resolution slip.  A rule naming an unknown owner
makes rule compilation fail, and rule compilation runs to completion
before the walk loop starts, so `main` aborts with no record processed
whatever the tree holds.  The error text shown is the intended
(Python 2) `fail_json` message; under the module's Python 3 shebang
`e.message` itself raises `AttributeError` at this point (the abort
still precedes any mutation) — see the results entry. -/
theorem claim_C4 :
    buildRegexp exUsers exGroups "/r" [declBadOwner] =
      Except.error "Could not find user or group: getpwnam(): name not found: 'bob'"
    ∧ ∀ tree, runMain exUsers exGroups exFSr argsC4 tree =
        Except.error "Could not find user or group: getpwnam(): name not found: 'bob'" :=
  ⟨by decide, fun _ => rfl⟩

/-- Counterexample for C5: the pattern anchor is built from the
caller's *raw* `root_path` text, not from the normalized form.  With
`root_path` spelled `"/app/"` (trailing slash), the normalized root is
`"/app/"`, but the compiled pattern for `"/"` is `^/app//$`, which does
*not* match the normalized root — refuting "a rule pattern of `/`
matches exactly the normalized root path … regardless of how the
caller spelled root_path". -/
theorem claim_C5_counterexample :
    normpathF exFS5 "/" "/app/" = "/app/"
    ∧ Except.map (fun pr => pr.check_path pdRoot5)
        (PermissionRegex.init [] [] "/app/" declSlash) = Except.ok false := by
  decide

/-- Counterexample for C6: anchoring is done by string concatenation
`'^{root}{pat}$'`, so a top-level alternation in the rule pattern
escapes the anchors.  With root `/app` and pattern `/x|/y`, the
candidate `/app/xzz` is reported as a match (first alternative
`^/app/x` matches a proper prefix), yet `/app/xzz` does not match
`root ++ pattern` in its entirety. -/
theorem claim_C6_counterexample :
    Except.map (fun pr => pr.check_path pdC6)
        (PermissionRegex.init [] [] "/app" declAlt) = Except.ok true
    ∧ fullMatchStr ("/app" ++ "/x|/y") "/app/xzz" = false := by
  decide

/-- Counterexample for C7: `collect_path_data` takes mode/uid/gid from
`os.lstat` but the type flag from the dereferencing `os.path.isdir`.
For the symlink `/r/link` → directory `/r/d`, the walk key gets a
trailing slash (`isdir` follows the link), the record's `isdir` is
`true`, and — because of the trailing slash — even the lstat resolves
to the target: the record carries the *target directory's* mode, uid
and gid (493 = 0o755, uid 5, gid 6), not the link's own non-directory
type and attributes (uid 1, gid 2). -/
theorem claim_C7_counterexample :
    lookupTab exFS7 "/r/link" = some linkE
    ∧ linkE.ftype = FType.symlink "/r/d"
    ∧ normpathF exFS7 "/" "/r/link" = "/r/link/"
    ∧ collect_path_data exFS7 "/r/link/" =
        some { path := "/r/link/", mode := 493, uid := 5, gid := 6,
               isdir := true, isfile := false } := by
  decide

/-- C9: a mode given as a string is parsed base-8 (`int(value, 8)`),
a native int is used verbatim, so `"644"` and `644` denote different
modes (0o644 = 420 vs 644); a non-octal string is fatal inside rule
compilation, which completes before the walk starts. -/
theorem claim_C9 :
    to_mode (some (ModeVal.mstr "644")) = Except.ok (some 420)
    ∧ to_mode (some (ModeVal.mint 644)) = Except.ok (some 644)
    ∧ (420 : Int) ≠ 644
    ∧ to_mode (some (ModeVal.mstr "abc")) = Except.error "Not an integer: abc"
    ∧ ∀ tree, runMain exUsers exGroups exFSr argsC9 tree =
        Except.error "Not an integer: abc" :=
  ⟨by decide, by decide, by decide, by decide, fun _ => rfl⟩

/-- Witness for C9 at the empty walk. -/
theorem claim_C9_witness :
    runMain exUsers exGroups exFSr argsC9 [] = Except.error "Not an integer: abc" :=
  claim_C9.2.2.2.2 []

/-- C2: the frame property of `apply`.  Path and type flags are never
touched; an attribute the rule leaves unspecified (`none`) keeps its
current value; an attribute specified at the current value is left
alone; any attribute that does change was explicitly specified at the
new value; a rule with no attributes at all is a complete no-op; and a
matching rule stops the scan regardless of what later (earlier-declared)
rules would have done. -/
theorem claim_C2 :
    ∀ (pr : PermissionRegex) (pd : PathRecord) (cm ch dbg : Bool),
      ((pr.apply pd cm ch dbg).1.path = pd.path
        ∧ (pr.apply pd cm ch dbg).1.isdir = pd.isdir
        ∧ (pr.apply pd cm ch dbg).1.isfile = pd.isfile)
      ∧ (pd.isfile = true →
          (pr.file_mode = none → (pr.apply pd cm ch dbg).1.mode = pd.mode)
          ∧ (pr.file_uid = none → (pr.apply pd cm ch dbg).1.uid = pd.uid)
          ∧ (pr.file_gid = none → (pr.apply pd cm ch dbg).1.gid = pd.gid)
          ∧ (pr.file_mode = some pd.mode → (pr.apply pd cm ch dbg).1.mode = pd.mode)
          ∧ (pr.file_uid = some pd.uid → (pr.apply pd cm ch dbg).1.uid = pd.uid)
          ∧ (pr.file_gid = some pd.gid → (pr.apply pd cm ch dbg).1.gid = pd.gid)
          ∧ ((pr.apply pd cm ch dbg).1.mode = pd.mode
              ∨ pr.file_mode = some ((pr.apply pd cm ch dbg).1.mode))
          ∧ ((pr.apply pd cm ch dbg).1.uid = pd.uid
              ∨ pr.file_uid = some ((pr.apply pd cm ch dbg).1.uid))
          ∧ ((pr.apply pd cm ch dbg).1.gid = pd.gid
              ∨ pr.file_gid = some ((pr.apply pd cm ch dbg).1.gid)))
      ∧ (pd.isfile = false → pd.isdir = true →
          (pr.dir_mode = none → (pr.apply pd cm ch dbg).1.mode = pd.mode)
          ∧ (pr.dir_uid = none → (pr.apply pd cm ch dbg).1.uid = pd.uid)
          ∧ (pr.dir_gid = none → (pr.apply pd cm ch dbg).1.gid = pd.gid)
          ∧ (pr.dir_mode = some pd.mode → (pr.apply pd cm ch dbg).1.mode = pd.mode)
          ∧ (pr.dir_uid = some pd.uid → (pr.apply pd cm ch dbg).1.uid = pd.uid)
          ∧ (pr.dir_gid = some pd.gid → (pr.apply pd cm ch dbg).1.gid = pd.gid)
          ∧ ((pr.apply pd cm ch dbg).1.mode = pd.mode
              ∨ pr.dir_mode = some ((pr.apply pd cm ch dbg).1.mode))
          ∧ ((pr.apply pd cm ch dbg).1.uid = pd.uid
              ∨ pr.dir_uid = some ((pr.apply pd cm ch dbg).1.uid))
          ∧ ((pr.apply pd cm ch dbg).1.gid = pd.gid
              ∨ pr.dir_gid = some ((pr.apply pd cm ch dbg).1.gid)))
      ∧ (pr.file_mode = none → pr.file_uid = none → pr.file_gid = none →
          pr.dir_mode = none → pr.dir_uid = none → pr.dir_gid = none →
          pr.apply pd cm ch dbg = (pd, ch, []))
      ∧ (∀ rest, pr.check_path pd = true →
          scanApply (pr :: rest) pd cm ch dbg = pr.apply pd cm ch dbg) := by
  intro pr pd cm ch dbg
  refine ⟨apply_frame pr pd cm ch dbg, ?_, ?_, ?_, ?_⟩
  · intro hf
    have hap : pr.apply pd cm ch dbg =
        applyChain pr.file_mode pr.file_uid pr.file_gid cm ch dbg pd := by
      simp [PermissionRegex.apply, hf]
    rw [hap]
    refine ⟨?_, ?_, ?_, ?_, ?_, ?_, ?_, ?_, ?_⟩
    · intro h0; rw [applyChain_mode, h0]; simp [optNe]
    · intro h0; rw [applyChain_uid, h0]; simp [optNe]
    · intro h0; rw [applyChain_gid, h0]; simp [optNe]
    · intro h0; rw [applyChain_mode, h0]; simp [optNe]
    · intro h0; rw [applyChain_uid, h0]; simp [optNe]
    · intro h0; rw [applyChain_gid, h0]; simp [optNe]
    · rw [applyChain_mode]
      cases hm : pr.file_mode with
      | none => simp [optNe]
      | some m0 =>
        by_cases h0 : pd.mode = m0 <;> cases cm <;> simp [optNe, h0]
    · rw [applyChain_uid]
      cases hu : pr.file_uid with
      | none => simp [optNe]
      | some u0 =>
        by_cases h0 : pd.uid = u0 <;> cases cm <;> simp [optNe, h0]
    · rw [applyChain_gid]
      cases hg : pr.file_gid with
      | none => simp [optNe]
      | some g0 =>
        by_cases h0 : pd.gid = g0 <;> cases cm <;> simp [optNe, h0]
  · intro hf hd
    have hap : pr.apply pd cm ch dbg =
        applyChain pr.dir_mode pr.dir_uid pr.dir_gid cm ch dbg pd := by
      simp [PermissionRegex.apply, hf, hd]
    rw [hap]
    refine ⟨?_, ?_, ?_, ?_, ?_, ?_, ?_, ?_, ?_⟩
    · intro h0; rw [applyChain_mode, h0]; simp [optNe]
    · intro h0; rw [applyChain_uid, h0]; simp [optNe]
    · intro h0; rw [applyChain_gid, h0]; simp [optNe]
    · intro h0; rw [applyChain_mode, h0]; simp [optNe]
    · intro h0; rw [applyChain_uid, h0]; simp [optNe]
    · intro h0; rw [applyChain_gid, h0]; simp [optNe]
    · rw [applyChain_mode]
      cases hm : pr.dir_mode with
      | none => simp [optNe]
      | some m0 =>
        by_cases h0 : pd.mode = m0 <;> cases cm <;> simp [optNe, h0]
    · rw [applyChain_uid]
      cases hu : pr.dir_uid with
      | none => simp [optNe]
      | some u0 =>
        by_cases h0 : pd.uid = u0 <;> cases cm <;> simp [optNe, h0]
    · rw [applyChain_gid]
      cases hg : pr.dir_gid with
      | none => simp [optNe]
      | some g0 =>
        by_cases h0 : pd.gid = g0 <;> cases cm <;> simp [optNe, h0]
  · intro h1 h2 h3 h4 h5 h6
    unfold PermissionRegex.apply
    rw [h1, h2, h3, h4, h5, h6]
    split
    · exact applyChain_none cm ch dbg pd
    · split
      · exact applyChain_none cm ch dbg pd
      · rfl
  · intro rest hcheck
    simp [scanApply, hcheck]

/-- Witness for C2: a rule with only an owner set leaves the mode
alone; a matching rule with no attributes is a complete no-op; and such
a rule still stops the scan in front of a rule that would have changed
the file. -/
theorem claim_C2_witness :
    (prOnlyUid.apply pdFileX true false true).1.mode = pdFileX.mode
    ∧ prNoAttrs.apply pdFileX true false true = (pdFileX, false, [])
    ∧ scanApply [prNoAttrs, prMatchAll] pdFileX true false true =
        prNoAttrs.apply pdFileX true false true :=
  ⟨((claim_C2 prOnlyUid pdFileX true false true).2.1 (by decide)).1 (by decide),
   (claim_C2 prNoAttrs pdFileX true false true).2.2.2.1 (by decide) (by decide)
     (by decide) (by decide) (by decide) (by decide),
   (claim_C2 prNoAttrs pdFileX true false true).2.2.2.2 [prMatchAll] (by decide)⟩

/-- C3, counterexample: reconciliation is NOT idempotent for every
tree state.  On the tree `/r` ∋ { file `/r/f`, symlink `/r/link` →
`/r/f` } under the single rule `file_mode = 0o755`, the walk reads the
symlink's own lstat attributes (mode `0o777`) while `os.chmod`
dereferences to the target, so the link's record re-fires the mode
check on every invocation: the second run still reports
`changed = true` (first conjunct), as did the first (second conjunct).
The walk keys are exactly the module's normalized paths for the three
entries, both on the original tree and on the tree the first run
leaves behind (remaining conjuncts). -/
theorem claim_C3_counterexample :
    (runPassFS [prC3] false true keysC3
        (runPassFS [prC3] false true keysC3 exFS3 false).1 false).2.1 = true
    ∧ (runPassFS [prC3] false true keysC3 exFS3 false).2.1 = true
    ∧ keysC3 = [normpathF exFS3 "/" "/r", normpathF exFS3 "/" "/r/f",
        normpathF exFS3 "/" "/r/link"]
    ∧ keysC3 = [normpathF (runPassFS [prC3] false true keysC3 exFS3 false).1 "/" "/r",
        normpathF (runPassFS [prC3] false true keysC3 exFS3 false).1 "/" "/r/f",
        normpathF (runPassFS [prC3] false true keysC3 exFS3 false).1 "/" "/r/link"] := by
  refine ⟨?_, ?_, ?_, ?_⟩ <;> decide

/-- C3, amended: on a symlink-free tree, under rules whose mode targets
lie in the masked 0–0o7777 range, an applying pass followed by a second
pass over the tree it produced (same distinct walk keys — `chmod` and
`chown` never create, remove or retype entries, so both invocations
enumerate the same keys) reports `changed = false`, leaves the tree
untouched and logs nothing. -/
theorem claim_C3_amended (rules : List PermissionRegex) (dbg : Bool)
    (keys : List String) (fs : FS)
    (hns : noSymlinks fs = true)
    (hrange : ∀ pr ∈ rules, rangeOk pr = true)
    (hnd : (keys.map stripSlashes).Nodup) :
    runPassFS rules dbg true keys (runPassFS rules dbg true keys fs false).1 false =
      ((runPassFS rules dbg true keys fs false).1, false, []) := by
  obtain ⟨h1, _, h3⟩ := runPassFS_main rules dbg hrange keys fs false hns hnd
  exact runPassFS_done rules dbg keys _ false h1 h3

/-- Witness for the amended C3 on the symlink-free part of the
counterexample tree: the hypotheses hold there and the second run is a
no-op (while the first run did report a change). -/
theorem claim_C3_amended_witness :
    (noSymlinks exFS3b = true
      ∧ (∀ pr ∈ [prC3], rangeOk pr = true)
      ∧ (keysW3.map stripSlashes).Nodup
      ∧ (runPassFS [prC3] false true keysW3 exFS3b false).2.1 = true)
    ∧ runPassFS [prC3] false true keysW3
        (runPassFS [prC3] false true keysW3 exFS3b false).1 false =
        ((runPassFS [prC3] false true keysW3 exFS3b false).1, false, []) :=
  ⟨⟨by decide, by decide, by decide, by decide⟩,
   claim_C3_amended [prC3] false keysW3 exFS3b (by decide) (by decide) (by decide)⟩

/-- C8: the result's `changed` flag is true exactly when at least one
attribute of at least one entry is (or would be) modified, and the
`changed_list` holds, in walk/application order, one copy of the
entry's path per mutating attribute application — but only when debug
is enabled; with debug off it stays empty.  `specChangedList` is the
spec-side description of that list. -/
theorem claim_C8 :
    ∀ (rules : List PermissionRegex) (tree : List PathRecord) (dbg cm : Bool),
      (runPass rules dbg cm tree false).2.2 =
        (if dbg then specChangedList rules tree else [])
      ∧ ((runPass rules dbg cm tree false).2.1 = true ↔
          specChangedList rules tree ≠ []) := by
  intro rules tree dbg cm
  have hb := runPass_book rules dbg cm tree false
  refine ⟨hb.2, ?_⟩
  rw [hb.1, Bool.false_or]
  constructor
  · intro h hnil
    rw [hnil] at h
    simp at h
  · intro h
    cases hsp : specChangedList rules tree with
    | nil => exact absurd hsp h
    | cons a l => rfl

/-- Witness for C8: with debug on, a rule changing both the mode and
the owner of `/r/a` logs that path twice, and the `changed` flag is
true. -/
theorem claim_C8_witness :
    (runPass [prMatchAll] true true [pdFileX] false).2.2 = ["/r/a", "/r/a"]
    ∧ (runPass [prMatchAll] true true [pdFileX] false).2.1 = true := by
  have h := claim_C8 [prMatchAll] [pdFileX] true true
  exact ⟨h.1.trans (by decide), h.2.mpr (by decide)⟩

/-- C10: `to_bool(None)` is `None`, not the documented default `True`.
`try_kwarg` substitutes the default only when the key is missing, so a
declaration without the key yields `do_files = True`, while an explicit
`do_files: null` yields `do_files = None` — and `check_path` treats
`None` as falsy, so such a rule never applies to any file (and
symmetrically `do_dirs: null` to any directory). -/
theorem claim_C10 :
    (to_bool BoolArg.pnone = Except.ok none)
    ∧ (∀ (users groups : List (String × Nat)) (root : String) (d : RuleDecl)
         (pr : PermissionRegex),
         d.do_files = some BoolArg.pnone →
         PermissionRegex.init users groups root d = Except.ok pr →
         pr.do_files = none)
    ∧ (∀ (users groups : List (String × Nat)) (root : String) (d : RuleDecl)
         (pr : PermissionRegex),
         d.do_files = none →
         PermissionRegex.init users groups root d = Except.ok pr →
         pr.do_files = some true)
    ∧ (∀ (users groups : List (String × Nat)) (root : String) (d : RuleDecl)
         (pr : PermissionRegex),
         d.do_dirs = some BoolArg.pnone →
         PermissionRegex.init users groups root d = Except.ok pr →
         pr.do_dirs = none)
    ∧ (∀ (users groups : List (String × Nat)) (root : String) (d : RuleDecl)
         (pr : PermissionRegex),
         d.do_dirs = none →
         PermissionRegex.init users groups root d = Except.ok pr →
         pr.do_dirs = some true)
    ∧ (∀ (pr : PermissionRegex) (pd : PathRecord),
         pr.do_files = none → pd.isfile = true → pr.check_path pd = false)
    ∧ (∀ (pr : PermissionRegex) (pd : PathRecord),
         pr.do_dirs = none → pd.isdir = true → pr.check_path pd = false) := by
  refine ⟨rfl, ?_, ?_, ?_, ?_, ?_, ?_⟩
  · intro users groups root d pr hdf hok
    have h := init_do_files users groups root d pr hok
    rw [hdf] at h
    simpa [to_bool, Option.getD] using h.symm
  · intro users groups root d pr hdf hok
    have h := init_do_files users groups root d pr hok
    rw [hdf] at h
    simpa [to_bool, Option.getD] using h.symm
  · intro users groups root d pr hdd hok
    have h := init_do_dirs users groups root d pr hok
    rw [hdd] at h
    simpa [to_bool, Option.getD] using h.symm
  · intro users groups root d pr hdd hok
    have h := init_do_dirs users groups root d pr hok
    rw [hdd] at h
    simpa [to_bool, Option.getD] using h.symm
  · intro pr pd hdf hpf
    simp [PermissionRegex.check_path, hdf, hpf, pyNotOpt]
  · intro pr pd hdd hpd
    by_cases hfirst : (pd.isfile && pyNotOpt pr.do_files) = true
    · simp [PermissionRegex.check_path, hfirst]
    · have hfirst' : (pd.isfile && pyNotOpt pr.do_files) = false := by
        simpa using hfirst
      simp [PermissionRegex.check_path, hfirst', hdd, hpd, pyNotOpt]

/-- Witness for C10: the concrete compiled rule for `do_files: null`
has `do_files = None` and does not check the file `/r/a`. -/
theorem claim_C10_witness :
    pr10.do_files = none ∧ pr10.check_path pdFileX = false :=
  ⟨claim_C10.2.1 [] [] "/r" d10null pr10 (by decide) (by decide),
   claim_C10.2.2.2.2.2.1 pr10 pdFileX (by decide) (by decide)⟩

/-- C5 as amended: the anchor is built from the caller's raw
`root_path` text.  When that spelling is already canonical (equal to
its abspath form, no trailing slash) and free of regex metacharacters,
the module's `normpath` of the root is `root ++ "/"` and the compiled
pattern for `"/"` matches exactly that normalized root — or the same
string with one trailing newline (Python `$`) — and nothing else. -/
theorem claim_C5_amended :
    ∀ (root s : String) (fs : FS) (cwd : String),
      root.toList.all plainChar = true →
      abspathF cwd root = root →
      isdirF fs root = true →
      normpathF fs cwd root = root ++ "/"
      ∧ (reMatch ("^" ++ root ++ "/" ++ "$") s = true ↔
          (s = root ++ "/" ∨ s = root ++ "/" ++ "\n")) := by
  intro root s fs cwd hplain habs hdir
  constructor
  · simp only [normpathF]
    rw [habs, if_pos hdir]
  · have hplain2 : (root ++ "/").toList.all plainChar = true := by
      rw [str_toList_append, List.all_append, hplain]
      decide
    have halt : '|' ∉ (root ++ "/").toList := by
      intro hmem
      have hval := List.all_eq_true.mp hplain2 '|' hmem
      exact absurd hval (by decide)
    rw [String.append_assoc "^" root "/", reMatch_anchored (root ++ "/") s halt]
    constructor
    · rintro ⟨j, hj1, hj2⟩
      rw [seqEnds_lit (root ++ "/").toList hplain2 s.toList 0] at hj1
      by_cases hlit : litMatchAt (root ++ "/").toList s.toList 0 = true
      · rw [if_pos hlit] at hj1
        simp only [List.mem_singleton] at hj1
        subst hj1
        have hend : atEndOrNl s.toList (root ++ "/").toList.length = true := by
          simpa using hj2
        have hres := (lit_end_cases (root ++ "/").toList s.toList).mp ⟨hlit, hend⟩
        rcases hres with hcase | hcase
        · exact Or.inl (strExt s (root ++ "/") hcase)
        · refine Or.inr (strExt s (root ++ "/" ++ "\n") ?_)
          rw [str_toList_append]
          exact hcase
      · rw [if_neg hlit] at hj1
        exact absurd hj1 (List.not_mem_nil j)
    · intro hcase
      have hlist : s.toList = (root ++ "/").toList
          ∨ s.toList = (root ++ "/").toList ++ ['\n'] := by
        rcases hcase with hcase | hcase
        · exact Or.inl (by rw [hcase])
        · exact Or.inr (by rw [hcase, str_toList_append]; rfl)
      have hl := (lit_end_cases (root ++ "/").toList s.toList).mpr hlist
      refine ⟨0 + (root ++ "/").toList.length, ?_, by simpa using hl.2⟩
      rw [seqEnds_lit (root ++ "/").toList hplain2 s.toList 0, if_pos hl.1]
      simp

/-- Witness for C5 as amended, at root `/app` spelled canonically. -/
theorem claim_C5_amended_witness :
    normpathF exFS5 "/" "/app" = "/app" ++ "/"
    ∧ (reMatch ("^" ++ "/app" ++ "/" ++ "$") "/app/" = true ↔
        ("/app/" = "/app" ++ "/" ∨ "/app/" = "/app" ++ "/" ++ "\n")) :=
  claim_C5_amended "/app" "/app/" exFS5 "/" (by decide) (by decide) (by decide)

/-- C6 as amended: for a rule pattern without top-level alternation,
the compiled `'^{root}{pat}$'` reports a match exactly when `root ++
pattern` matches the candidate from its first character through its
last — or through all but one final newline (Python `$`). -/
theorem claim_C6_amended :
    ∀ (root pat s : String),
      '|' ∉ (root ++ pat).toList →
      (reMatch ("^" ++ root ++ pat ++ "$") s = true ↔
        ∃ j, j ∈ seqEnds (root ++ pat).toList s.toList 0
          ∧ atEndOrNl s.toList j = true) := by
  intro root pat s halt
  rw [String.append_assoc "^" root pat]
  exact reMatch_anchored (root ++ pat) s halt

/-- Witness for C6 as amended, at root `/app`, pattern `/x`, candidate
`/app/x`. -/
theorem claim_C6_amended_witness :
    ('|' ∉ ("/app" ++ "/x").toList)
    ∧ (reMatch ("^" ++ "/app" ++ "/x" ++ "$") "/app/x" = true ↔
        ∃ j, j ∈ seqEnds ("/app" ++ "/x").toList "/app/x".toList 0
          ∧ atEndOrNl "/app/x".toList j = true) :=
  ⟨by decide, claim_C6_amended "/app" "/x" "/app/x" (by decide)⟩

/-- C7 as amended: the record's mode/uid/gid come from `os.lstat` with
the mode masked to the low 12 bits, but the type flag follows symlinks.
A symlink to a non-directory is recorded with its own (masked)
attributes and non-directory type; a symlink to a directory gets a
trailing slash from the walker, is typed as a directory, and — because
the trailing slash makes even `lstat` resolve the link — is recorded
with the *target's* attributes. -/
theorem claim_C7_amended :
    ∀ (fs : FS) (p t : String) (e e2 : FSEntry),
      p ≠ "" →
      p.toList.getLast? ≠ some '/' →
      lookupTab fs p = some e →
      e.ftype = FType.symlink t →
      lookupTab fs t = some e2 →
      (e2.ftype = FType.file →
        collect_path_data fs p =
          some { path := p, mode := (Nat.land e.mode 4095 : Nat), uid := e.uid,
                 gid := e.gid, isdir := false, isfile := true })
      ∧ (e2.ftype = FType.dir →
        collect_path_data fs (p ++ "/") =
          some { path := p ++ "/", mode := (Nat.land e2.mode 4095 : Nat),
                 uid := e2.uid, gid := e2.gid, isdir := true, isfile := false }) := by
  intro fs p t e e2 hne hnl hlook hft hlook2
  have hstrip : stripSlashes p = p := stripSlashes_keep p hnl
  have h40 : statFollow fs 40 p = statFollow fs 39 t := by
    rw [show (40 : Nat) = 39 + 1 from rfl, statFollow_succ, hlook]
    dsimp only
    rw [hft]
  constructor
  · intro hf2
    have h39 : statFollow fs 39 t = some e2 := by
      rw [show (39 : Nat) = 38 + 1 from rfl, statFollow_succ, hlook2]
      dsimp only
      rw [hf2]
    have hisdir : isdirF fs p = false := by
      unfold isdirF
      rw [hstrip, h40, h39]
      dsimp only
      rw [hf2]
    have hlstat : lstatF fs p = some e := by
      unfold lstatF
      rw [if_neg (by
        intro hcond
        rw [Bool.and_eq_true] at hcond
        exact hnl (of_decide_eq_true hcond.1))]
      exact hlook
    unfold collect_path_data
    rw [hlstat]
    dsimp only
    rw [hisdir]
    rfl
  · intro hf2
    have h39 : statFollow fs 39 t = some e2 := by
      rw [show (39 : Nat) = 38 + 1 from rfl, statFollow_succ, hlook2]
      dsimp only
      rw [hf2]
    have hisdir : isdirF fs (p ++ "/") = true := by
      unfold isdirF
      rw [stripSlashes_append_slash p hne, hstrip, h40, h39]
      dsimp only
      rw [hf2]
    have hlast : (p ++ "/").toList.getLast? = some '/' := by
      rw [str_toList_append]
      simp
    have hneq : p ++ "/" ≠ "/" := by
      intro hq
      apply hne
      have h3 := congrArg String.toList hq
      rw [str_toList_append] at h3
      have hnil : p.toList = [] := by
        cases hpt : p.toList with
        | nil => rfl
        | cons a l =>
          rw [hpt] at h3
          simp only [List.cons_append] at h3
          have h4 := congrArg List.length h3
          simp at h4
      exact strExt p "" (by rw [hnil]; rfl)
    have hlstatB : lstatF fs (p ++ "/") = statFollow fs 40 (stripSlashes (p ++ "/")) := by
      unfold lstatF
      rw [if_pos (by simp [hlast, hneq])]
    unfold collect_path_data
    rw [hlstatB, stripSlashes_append_slash p hne, hstrip, h40, h39]
    dsimp only
    rw [hisdir]
    rfl

/-- Witness for C7 as amended: the symlink `/r/link` → directory
`/r/d` of the concrete filesystem is recorded under its slashed walk
key with the target's attributes and directory type. -/
theorem claim_C7_amended_witness :
    collect_path_data exFS7 ("/r/link" ++ "/") =
      some { path := "/r/link" ++ "/", mode := (Nat.land 16877 4095 : Nat), uid := 5,
             gid := 6, isdir := true, isfile := false } :=
  (claim_C7_amended exFS7 "/r/link" "/r/d" linkE
      { mode := 16877, uid := 5, gid := 6, ftype := FType.dir }
      (by decide) (by decide) (by decide) (by decide) (by decide)).2 (by decide)

end TreePermission
